import Mathlib

/-!
# Verification of the TLSF allocator (OlegHahm/tlsf)

A shallow embedding of `src/tlsf.c` (TLSF 3.0, RIOT-OS variant) in Lean 4,
modelling the 32-bit configuration the source is tuned for
(`sizeof(size_t) = 4`, `sizeof(void*) = 4`, so `sizeof(block_header_t) = 16`,
`block_start_offset = 8`, `block_header_overhead = 4`, `block_size_min = 12`).

Machine integers are modelled as `Nat`, with explicit `% 2^32` where the C
code relies on wrap-around, and bit operations (`&&&`, `|||`, `^^^`, `<<<`,
`>>>`) where the C code uses them.  Pointers are modelled as `Nat` addresses;
the null pointer is `0`.
-/

set_option maxRecDepth 8192

namespace Tlsf

/-! ## Constants (`enum tlsf_public` / `enum tlsf_private`, tlsf.c lines 16-46) -/

def SL_INDEX_COUNT_LOG2 : Nat := 2
def ALIGN_SIZE_LOG2 : Nat := 2
def ALIGN_SIZE : Nat := 1 <<< ALIGN_SIZE_LOG2
def FL_INDEX_MAX : Nat := 30
def SL_INDEX_COUNT : Nat := 1 <<< SL_INDEX_COUNT_LOG2
def FL_INDEX_SHIFT : Nat := SL_INDEX_COUNT_LOG2 + ALIGN_SIZE_LOG2
def FL_INDEX_COUNT : Nat := FL_INDEX_MAX - FL_INDEX_SHIFT + 1
def SMALL_BLOCK_SIZE : Nat := 1 <<< FL_INDEX_SHIFT

/-- `sizeof(size_t)` in the 32-bit configuration (tlsf.c line 123). -/
def block_header_overhead : Nat := 4

/-- `offsetof(block_header_t, size) + sizeof(size_t)` (tlsf.c line 126). -/
def block_start_offset : Nat := 8

/-- `sizeof(block_header_t) - sizeof(block_header_t*)` (tlsf.c line 134). -/
def block_size_min : Nat := 16 - 4

/-- `(size_t)1 << FL_INDEX_MAX` (tlsf.c line 136). -/
def block_size_max : Nat := 1 <<< FL_INDEX_MAX

/-- `sizeof(block_header_t)` in the 32-bit configuration. -/
def sizeof_block_header : Nat := 16

/-- One beyond the largest value of a 32-bit machine word. -/
def U32 : Nat := 2 ^ 32

/-! ## Bit-scan primitives

`tlsfbits.h` is not part of `src/`; these are the two primitives it must
provide.  Both are written with an explicit fuel so they evaluate in the
kernel; 32 steps cover every 32-bit argument. -/

/-- Modelled from the spec: `tlsfbits.h` (absent from `src/`) provides
`tlsf_fls` / `tlsf_fls_sizet`, the "find last set" primitive; the spec defines
it by `fl = floor(log2(size))`, "position of highest set bit" (spec §4.1, §9
"Bit-scan dependency").  For `w < 2^fuel` the fuelled loop computes
`Nat.log2 w` (proved below). -/
def fls_aux : Nat → Nat → Nat
  | 0, _ => 0
  | fuel + 1, w => if w < 2 then 0 else fls_aux fuel (w / 2) + 1

/-- Modelled from the spec: find last set on a 32-bit `size_t`. -/
def tlsf_fls_sizet (w : Nat) : Nat := fls_aux 32 w

/-- Modelled from the spec: `tlsfbits.h` (absent from `src/`) provides
`tlsf_ffs`, "find first set", index of the lowest set bit (spec §4.1 step 1-3,
§9 "Bit-scan dependency").  Fuelled so it evaluates in the kernel; never
applied to `0` by the allocator (asserted in `search_suitable_block`). -/
def ffs_aux : Nat → Nat → Nat
  | 0, _ => 0
  | fuel + 1, w => if w % 2 = 1 then 0 else ffs_aux fuel (w / 2) + 1

/-- Modelled from the spec: find first set on a 32-bit word. -/
def tlsf_ffs (w : Nat) : Nat := ffs_aux 32 w

/-! ## Alignment helpers (tlsf.c lines 267-285)

The C code computes `(x + (align - 1)) & ~(align - 1)` on a machine word;
for any `y` the conjunction `y & (align - 1)` is a sub-mask of `y`, so
clearing those bits is the subtraction `y - (y &&& (align - 1))`, which is the
width-independent rendering used here. -/

def align_up (x align : Nat) : Nat :=
  (x + (align - 1)) - ((x + (align - 1)) &&& (align - 1))

def align_down (x align : Nat) : Nat :=
  x - (x &&& (align - 1))

/-- `align_ptr` (tlsf.c line 279): identical arithmetic to `align_up`,
applied to a pointer value. -/
def align_ptr (p align : Nat) : Nat :=
  (p + (align - 1)) - ((p + (align - 1)) &&& (align - 1))

/-- `adjust_request_size` (tlsf.c lines 291-300). -/
def adjust_request_size (size align : Nat) : Nat :=
  if size ≠ 0 ∧ size < block_size_max then
    max (align_up size align) block_size_min
  else 0

/-! ## The two-level mapping (tlsf.c lines 307-335) -/

/-- `mapping_insert` (tlsf.c lines 307-324): returns `(fl, sl)`. -/
def mapping_insert (size : Nat) : Nat × Nat :=
  if size < SMALL_BLOCK_SIZE then
    (0, size / (SMALL_BLOCK_SIZE / SL_INDEX_COUNT))
  else
    let fl := tlsf_fls_sizet size
    (fl - (FL_INDEX_SHIFT - 1),
     (size >>> (fl - SL_INDEX_COUNT_LOG2)) ^^^ (1 <<< SL_INDEX_COUNT_LOG2))

/-- `mapping_search` (tlsf.c lines 327-335): rounds the size up before the
insert mapping. -/
def mapping_search (size : Nat) : Nat × Nat :=
  if size ≥ 1 <<< SL_INDEX_COUNT_LOG2 then
    mapping_insert (size + ((1 <<< (tlsf_fls_sizet size - SL_INDEX_COUNT_LOG2)) - 1))
  else
    mapping_insert size

/-- The lexicographic order on `(fl, sl)` bucket indices in which
`search_suitable_block` scans. -/
def lexLe (a b : Nat × Nat) : Prop := a.1 < b.1 ∨ (a.1 = b.1 ∧ a.2 ≤ b.2)

/-- The rounded-up size `mapping_search` uses. -/
def search_arg (size : Nat) : Nat :=
  size + ((1 <<< (tlsf_fls_sizet size - SL_INDEX_COUNT_LOG2)) - 1)

/-! ## The allocator state

`control_t` (tlsf.c lines 140-151) plus the block headers living in pool
memory.  A block is identified by the address of its header.  The struct
member arrays are modelled as total functions (the C arrays are the
restrictions to `fl < FL_INDEX_COUNT`, `sl < SL_INDEX_COUNT`); free-list
heads hold the address of `control->block_null` (`nullAddr`) when empty,
exactly as in the source.  The C null pointer is the address `0`. -/

structure TlsfState where
  nullAddr : Nat
  fl_bitmap : Nat
  sl_bitmap : Nat → Nat
  blocks : Nat → Nat → Nat
  prev_phys : Nat → Nat
  sizeF : Nat → Nat
  next_free : Nat → Nat
  prev_free : Nat → Nat

/-- `block_size` (tlsf.c line 165): `size & ~(free_bit | prev_free_bit)`.
Clearing the two low bits of `v` is `v - (v &&& 3)` at every word width. -/
def block_size (s : TlsfState) (b : Nat) : Nat := s.sizeF b - (s.sizeF b &&& 3)

/-- `block_set_size` (tlsf.c line 170): keeps the two flag bits. -/
def block_set_size (s : TlsfState) (b size : Nat) : TlsfState :=
  { s with sizeF := Function.update s.sizeF b (size ||| (s.sizeF b &&& 3)) }

/-- `block_is_last` (tlsf.c line 176). -/
def block_is_last (s : TlsfState) (b : Nat) : Bool := block_size s b = 0

/-- `block_is_free` (tlsf.c line 181). -/
def block_is_free (s : TlsfState) (b : Nat) : Bool := s.sizeF b &&& 1 ≠ 0

/-- `block_set_free` (tlsf.c line 186). -/
def block_set_free (s : TlsfState) (b : Nat) : TlsfState :=
  { s with sizeF := Function.update s.sizeF b (s.sizeF b ||| 1) }

/-- `block_set_used` (tlsf.c line 191): `size &= ~free_bit`. -/
def block_set_used (s : TlsfState) (b : Nat) : TlsfState :=
  { s with sizeF := Function.update s.sizeF b (s.sizeF b - (s.sizeF b &&& 1)) }

/-- `block_is_prev_free` (tlsf.c line 196). -/
def block_is_prev_free (s : TlsfState) (b : Nat) : Bool := s.sizeF b &&& 2 ≠ 0

/-- `block_set_prev_free` (tlsf.c line 201). -/
def block_set_prev_free (s : TlsfState) (b : Nat) : TlsfState :=
  { s with sizeF := Function.update s.sizeF b (s.sizeF b ||| 2) }

/-- `block_set_prev_used` (tlsf.c line 206): `size &= ~prev_free_bit`. -/
def block_set_prev_used (s : TlsfState) (b : Nat) : TlsfState :=
  { s with sizeF := Function.update s.sizeF b (s.sizeF b - (s.sizeF b &&& 2)) }

/-- `block_from_ptr` (tlsf.c line 211). -/
def block_from_ptr (p : Nat) : Nat := p - block_start_offset

/-- `block_to_ptr` (tlsf.c line 217). -/
def block_to_ptr (b : Nat) : Nat := b + block_start_offset

/-- `offset_to_block` (tlsf.c line 224). -/
def offset_to_block (p size : Nat) : Nat := p + size

/-- `block_prev` (tlsf.c line 230). -/
def block_prev (s : TlsfState) (b : Nat) : Nat := s.prev_phys b

/-- `block_next` (tlsf.c line 236). -/
def block_next (s : TlsfState) (b : Nat) : Nat :=
  offset_to_block (block_to_ptr b) (block_size s b - block_header_overhead)

/-- `block_link_next` (tlsf.c line 245): returns the neighbor. -/
def block_link_next (s : TlsfState) (b : Nat) : TlsfState × Nat :=
  let next := block_next s b
  ({ s with prev_phys := Function.update s.prev_phys next b }, next)

/-- `block_mark_as_free` (tlsf.c line 252). -/
def block_mark_as_free (s : TlsfState) (b : Nat) : TlsfState :=
  let p := block_link_next s b
  block_set_free (block_set_prev_free p.1 p.2) b

/-- `block_mark_as_used` (tlsf.c line 260). -/
def block_mark_as_used (s : TlsfState) (b : Nat) : TlsfState :=
  let next := block_next s b
  block_set_used (block_set_prev_used s next) b

/-- The 32-bit value of `~0 << k` on `unsigned int` (used by
`search_suitable_block` to mask off list indices below `k`). -/
def mask_ge (k : Nat) : Nat := ((U32 - 1) <<< k) % U32

/-- `remove_free_block` (tlsf.c lines 370-396). -/
def remove_free_block (s : TlsfState) (block fl sl : Nat) : TlsfState :=
  let prev := s.prev_free block
  let next := s.next_free block
  let s₁ := { s with prev_free := Function.update s.prev_free next prev }
  let s₂ := { s₁ with next_free := Function.update s₁.next_free prev next }
  if s₂.blocks fl sl = block then
    let s₃ := { s₂ with
      blocks := Function.update s₂.blocks fl (Function.update (s₂.blocks fl) sl next) }
    if next = s₃.nullAddr then
      let s₄ := { s₃ with
        sl_bitmap := Function.update s₃.sl_bitmap fl
          (s₃.sl_bitmap fl - (s₃.sl_bitmap fl &&& (1 <<< sl))) }
      if s₄.sl_bitmap fl = 0 then
        { s₄ with fl_bitmap := s₄.fl_bitmap - (s₄.fl_bitmap &&& (1 <<< fl)) }
      else s₄
    else s₃
  else s₂

/-- `insert_free_block` (tlsf.c lines 399-417). -/
def insert_free_block (s : TlsfState) (block fl sl : Nat) : TlsfState :=
  let current := s.blocks fl sl
  let s₁ := { s with next_free := Function.update s.next_free block current }
  let s₂ := { s₁ with prev_free := Function.update s₁.prev_free block s₁.nullAddr }
  let s₃ := { s₂ with prev_free := Function.update s₂.prev_free current block }
  let s₄ := { s₃ with
    blocks := Function.update s₃.blocks fl (Function.update (s₃.blocks fl) sl block) }
  let s₅ := { s₄ with fl_bitmap := s₄.fl_bitmap ||| (1 <<< fl) }
  { s₅ with sl_bitmap := Function.update s₅.sl_bitmap fl (s₅.sl_bitmap fl ||| (1 <<< sl)) }

/-- `block_remove` (tlsf.c line 420). -/
def block_remove (s : TlsfState) (block : Nat) : TlsfState :=
  let m := mapping_insert (block_size s block)
  remove_free_block s block m.1 m.2

/-- `block_insert` (tlsf.c line 428). -/
def block_insert (s : TlsfState) (block : Nat) : TlsfState :=
  let m := mapping_insert (block_size s block)
  insert_free_block s block m.1 m.2

/-- `block_can_split` (tlsf.c line 435). -/
def block_can_split (s : TlsfState) (block size : Nat) : Bool :=
  block_size s block ≥ sizeof_block_header + size

/-- `block_split` (tlsf.c lines 441-460): returns the remaining block. -/
def block_split (s : TlsfState) (block size : Nat) : TlsfState × Nat :=
  let remaining := offset_to_block (block_to_ptr block) (size - block_header_overhead)
  let remain_size := block_size s block - (size + block_header_overhead)
  let s₁ := block_set_size s remaining remain_size
  let s₂ := block_set_size s₁ block size
  (block_mark_as_free s₂ remaining, remaining)

/-- `block_absorb` (tlsf.c lines 463-470): note the raw `prev->size +=`,
which leaves `prev`'s flag bits untouched. -/
def block_absorb (s : TlsfState) (prev block : Nat) : TlsfState × Nat :=
  let s₁ := { s with
    sizeF := Function.update s.sizeF prev
      (s.sizeF prev + (block_size s block + block_header_overhead)) }
  ((block_link_next s₁ prev).1, prev)

/-- `block_merge_prev` (tlsf.c lines 473-485). -/
def block_merge_prev (s : TlsfState) (block : Nat) : TlsfState × Nat :=
  if block_is_prev_free s block then
    let prev := block_prev s block
    let s₁ := block_remove s prev
    block_absorb s₁ prev block
  else (s, block)

/-- `block_merge_next` (tlsf.c lines 488-501). -/
def block_merge_next (s : TlsfState) (block : Nat) : TlsfState × Nat :=
  let next := block_next s block
  if block_is_free s next then
    let s₁ := block_remove s next
    block_absorb s₁ block next
  else (s, block)

/-- `block_trim_free` (tlsf.c lines 504-514). -/
def block_trim_free (s : TlsfState) (block size : Nat) : TlsfState :=
  if block_can_split s block size then
    let p := block_split s block size
    let s₂ := (block_link_next p.1 block).1
    let s₃ := block_set_prev_free s₂ p.2
    block_insert s₃ p.2
  else s

/-- `block_trim_used` (tlsf.c lines 517-529). -/
def block_trim_used (s : TlsfState) (block size : Nat) : TlsfState :=
  if block_can_split s block size then
    let p := block_split s block size
    let s₂ := block_set_prev_used p.1 p.2
    let q := block_merge_next s₂ p.2
    block_insert q.1 q.2
  else s

/-- `block_trim_free_leading` (tlsf.c lines 531-545). -/
def block_trim_free_leading (s : TlsfState) (block size : Nat) : TlsfState × Nat :=
  if block_can_split s block size then
    let p := block_split s block (size - block_header_overhead)
    let s₂ := block_set_prev_free p.1 p.2
    let s₃ := (block_link_next s₂ block).1
    (block_insert s₃ block, p.2)
  else (s, block)

/-- `search_suitable_block` (tlsf.c lines 337-367): returns the found block
(`0` for the C null pointer when memory is exhausted) and the final `fl`,
`sl` indices. -/
def search_suitable_block (s : TlsfState) (fl sl : Nat) : Nat × Nat × Nat :=
  let sl_map := s.sl_bitmap fl &&& mask_ge sl
  if sl_map ≠ 0 then
    let sl' := tlsf_ffs sl_map
    (s.blocks fl sl', fl, sl')
  else
    let fl_map := s.fl_bitmap &&& mask_ge (fl + 1)
    if fl_map = 0 then (0, fl, sl)
    else
      let fl' := tlsf_ffs fl_map
      let sl' := tlsf_ffs (s.sl_bitmap fl')
      (s.blocks fl' sl', fl', sl')

/-- `block_locate_free` (tlsf.c lines 547-565). -/
def block_locate_free (s : TlsfState) (size : Nat) : TlsfState × Nat :=
  if size ≠ 0 then
    let m := mapping_search size
    let r := search_suitable_block s m.1 m.2
    if r.1 ≠ 0 then (remove_free_block s r.1 r.2.1 r.2.2, r.1)
    else (s, 0)
  else (s, 0)

/-- `block_prepare_used` (tlsf.c lines 567-577). -/
def block_prepare_used (s : TlsfState) (block size : Nat) : TlsfState × Nat :=
  if block ≠ 0 then
    let s₁ := block_trim_free s block size
    let s₂ := block_mark_as_used s₁ block
    (s₂, block_to_ptr block)
  else (s, 0)

/-- `tlsf_malloc` (tlsf.c lines 709-714). -/
def tlsf_malloc (s : TlsfState) (size : Nat) : TlsfState × Nat :=
  let adjust := adjust_request_size size ALIGN_SIZE
  let r := block_locate_free s adjust
  block_prepare_used r.1 r.2 adjust

/-- `tlsf_free` (tlsf.c lines 769-781). -/
def tlsf_free (s : TlsfState) (ptr : Nat) : TlsfState :=
  if ptr ≠ 0 then
    let block := block_from_ptr ptr
    let s₁ := block_mark_as_free s block
    let p := block_merge_prev s₁ block
    let q := block_merge_next p.1 p.2
    block_insert q.1 q.2
  else s

/-- `tlsf_memalign` (tlsf.c lines 716-767).  The user-data copy aside, this
is the complete pointer and state computation. -/
def tlsf_memalign (s : TlsfState) (align size : Nat) : TlsfState × Nat :=
  let adjust := adjust_request_size size ALIGN_SIZE
  let gap_minimum := sizeof_block_header
  let size_with_gap := adjust_request_size (adjust + align + gap_minimum) align
  let aligned_size := if align ≤ ALIGN_SIZE then adjust else size_with_gap
  let r := block_locate_free s aligned_size
  let t :=
    if r.2 ≠ 0 then
      let ptr := block_to_ptr r.2
      let aligned := align_ptr ptr align
      let gap := aligned - ptr
      let ag :=
        if gap ≠ 0 ∧ gap < gap_minimum then
          let gap_remain := gap_minimum - gap
          let offset := max gap_remain align
          let next_aligned := aligned + offset
          let a2 := align_ptr next_aligned align
          (a2, a2 - ptr)
        else (aligned, gap)
      if ag.2 ≠ 0 then block_trim_free_leading r.1 r.2 ag.2
      else (r.1, r.2)
    else (r.1, r.2)
  block_prepare_used t.1 t.2 adjust

/-- `tlsf_realloc` (tlsf.c lines 796-851).  The `memcpy` of user bytes is
outside the header model; everything else is the complete computation. -/
def tlsf_realloc (s : TlsfState) (ptr size : Nat) : TlsfState × Nat :=
  if ptr ≠ 0 ∧ size = 0 then (tlsf_free s ptr, 0)
  else if ptr = 0 then tlsf_malloc s size
  else
    let block := block_from_ptr ptr
    let next := block_next s block
    let cursize := block_size s block
    let combined := cursize + block_size s next + block_header_overhead
    let adjust := adjust_request_size size ALIGN_SIZE
    if adjust > cursize ∧ (¬block_is_free s next ∨ adjust > combined) then
      let r := tlsf_malloc s size
      if r.2 ≠ 0 then (tlsf_free r.1 ptr, r.2)
      else (r.1, 0)
    else
      let s₁ :=
        if adjust > cursize then block_mark_as_used (block_merge_next s block).1 block
        else s
      let s₂ := block_trim_used s₁ block adjust
      (s₂, ptr)

/-- `tlsf_add_pool` (tlsf.c lines 640-683); returns the C `int` result.
`bytes - pool_overhead` is the 32-bit `size_t` subtraction. -/
def tlsf_add_pool (s : TlsfState) (mem bytes : Nat) : TlsfState × Nat :=
  let pool_overhead := 2 * block_header_overhead
  let pool_bytes := align_down ((bytes + U32 - pool_overhead) % U32) ALIGN_SIZE
  if mem % ALIGN_SIZE ≠ 0 then (s, 0)
  else if pool_bytes < block_size_min ∨ pool_bytes > block_size_max then (s, 0)
  else
    let block := mem - block_header_overhead
    let s₁ := block_set_size s block pool_bytes
    let s₂ := block_set_free s₁ block
    let s₃ := block_set_prev_used s₂ block
    let s₄ := block_insert s₃ block
    let p := block_link_next s₄ block
    let s₆ := block_set_size p.1 p.2 0
    let s₇ := block_set_used s₆ p.2
    let s₈ := block_set_prev_free s₇ p.2
    (s₈, 1)

/-- `control_construct` (tlsf.c lines 580-596): `control` is placed at `mem`
(`block_null` is the first member of `control_t`), the bitmaps are zeroed and
every in-range list head points at `block_null`. -/
def control_construct (s : TlsfState) (mem : Nat) : TlsfState :=
  { s with
    nullAddr := mem
    next_free := Function.update s.next_free mem mem
    prev_free := Function.update s.prev_free mem mem
    fl_bitmap := 0
    sl_bitmap := fun i => if i < FL_INDEX_COUNT then 0 else s.sl_bitmap i
    blocks := fun i j =>
      if i < FL_INDEX_COUNT ∧ j < SL_INDEX_COUNT then mem else s.blocks i j }

/-- `tlsf_create` (tlsf.c lines 689-701).  The C function returns `void`:
on a misaligned `mem` it prints a message and returns, leaving the allocator
in its prior state; otherwise it installs the control structure at `mem`. -/
def tlsf_create (s : TlsfState) (mem : Nat) : TlsfState :=
  if mem % ALIGN_SIZE ≠ 0 then s
  else control_construct s mem

/-- `tlsf_create` together with its (void) return value, modelled as `Unit`:
the C signature is `void tlsf_create(void* mem)` (tlsf.h line 26), so the
call produces no success/failure value at all. -/
def tlsf_create_ret (s : TlsfState) (mem : Nat) : Unit × TlsfState :=
  ((), tlsf_create s mem)

/-- A concrete allocator state used by the witnesses: an empty index
(`control->block_null` at address 4, all lists empty, bitmaps zero) and one
used block at address 100 of payload size 20, followed by its zero-size used
sentinel at address 124. -/
def wBase : TlsfState where
  nullAddr := 4
  fl_bitmap := 0
  sl_bitmap := fun _ => 0
  blocks := fun _ _ => 4
  prev_phys := fun _ => 0
  sizeF := fun a => if a = 100 then 20 else 0
  next_free := fun _ => 4
  prev_free := fun _ => 4

/-- A concrete allocator state with a single free block of payload size 12 at
address 100, listed (correctly for the insert mapping) in bucket `(0, 3)`:
`sl_bitmap[0] = 2^3`, `fl_bitmap = 2^0`.  Its physical successor at 116 is a
used block.  Used by the C1 analysis. -/
def w1 : TlsfState where
  nullAddr := 4
  fl_bitmap := 1
  sl_bitmap := fun fl => if fl = 0 then 8 else 0
  blocks := fun fl sl => if fl = 0 ∧ sl = 3 then 100 else 4
  prev_phys := fun a => if a = 116 then 100 else 0
  sizeF := fun a => if a = 100 then 13 else if a = 116 then 2 else 0
  next_free := fun _ => 4
  prev_free := fun _ => 4

/-- A concrete allocator state with a single free block of payload size 32 at
address 108 (user pointer 116, 4-aligned but not 16-aligned), listed in its
correct bucket `(2, 0)`; its physical successor at 144 is used.  Used by the
C5 analysis. -/
def w5 : TlsfState where
  nullAddr := 4
  fl_bitmap := 4
  sl_bitmap := fun fl => if fl = 2 then 1 else 0
  blocks := fun fl sl => if fl = 2 ∧ sl = 0 then 108 else 4
  prev_phys := fun a => if a = 144 then 108 else 0
  sizeF := fun a => if a = 108 then 33 else if a = 144 then 2 else 0
  next_free := fun _ => 4
  prev_free := fun _ => 4


/-! ## Physical block chain model (claim C2)

The physical layout of a pool is a contiguous sequence of blocks.  `PBlock`
records the two header facts relevant to coalescing: the block size and the
FREE bit.  A pool chain is modelled as a zipper `⟨bef, cur, aft⟩` focused on
the block an operation acts on, with `bef` listing the physical predecessors
nearest-first; `chainOf` recovers the address-ordered sequence.  Each
operation below is the action of the correspondingly named `src/tlsf.c`
function on this sequence.  The free-list and bitmap bookkeeping
(`block_insert` / `block_remove` / `remove_free_block`), which does not touch
the physical sequence, is elided; the PREV_FREE bit read by
`block_is_prev_free` is the cached freeness of the physical predecessor and
is read off `bef` directly. -/

structure PBlock where
  size : Nat
  free : Bool

structure PZip where
  bef : List PBlock
  cur : PBlock
  aft : List PBlock

/-- The address-ordered physical sequence represented by a zipper. -/
def chainOf (z : PZip) : List PBlock := z.bef.reverse ++ z.cur :: z.aft

/-- The no-adjacent-free-blocks invariant (spec §3.2 invariant 4): the chain
contains no two consecutive blocks that are both marked FREE. -/
@[reducible] def NAF (c : List PBlock) : Prop :=
  List.Chain' (fun a b => ¬(a.free = true ∧ b.free = true)) c

/-- `block_can_split` (tlsf.c line 435) on a chain block. -/
def pb_can_split (b : PBlock) (size : Nat) : Bool :=
  b.size ≥ sizeof_block_header + size

/-- `block_split` (tlsf.c lines 441-460): the focus keeps its flags at the
new size; the free remainder becomes its physical successor.  The focus
stays on the first part (callers that want the remainder refocus with
`pz_next`). -/
def pz_split (z : PZip) (size : Nat) : PZip :=
  { z with cur := ⟨size, z.cur.free⟩,
           aft := ⟨z.cur.size - (size + block_header_overhead), true⟩ :: z.aft }

/-- `block_absorb` (tlsf.c lines 463-471): `prev->size += block_size(block)
+ block_header_overhead`; flags are left untouched. -/
def pb_absorb (p b : PBlock) : PBlock :=
  ⟨p.size + b.size + block_header_overhead, p.free⟩

/-- Refocus on the physical successor (`block_next`). -/
def pz_next (z : PZip) : PZip :=
  match z.aft with
  | [] => z
  | n :: rest => ⟨z.cur :: z.bef, n, rest⟩

/-- `block_merge_prev` (tlsf.c lines 474-486): if the physical predecessor
is free (the PREV_FREE bit), remove it from its list and absorb the focus
into it. -/
def pz_merge_prev (z : PZip) : PZip :=
  match z.bef with
  | [] => z
  | p :: rest => if p.free then ⟨rest, pb_absorb p z.cur, z.aft⟩ else z

/-- `block_merge_next` (tlsf.c lines 489-501): if the physical successor is
free, remove it from its list and absorb it into the focus. -/
def pz_merge_next (z : PZip) : PZip :=
  match z.aft with
  | [] => z
  | n :: rest => if n.free then ⟨z.bef, pb_absorb z.cur n, rest⟩ else z

/-- `block_trim_free` (tlsf.c lines 504-514). -/
def pz_trim_free (z : PZip) (size : Nat) : PZip :=
  if pb_can_split z.cur size then pz_split z size else z

/-- `block_trim_used` (tlsf.c lines 517-529): split, then coalesce the
remainder with a free physical successor before inserting it. -/
def pz_trim_used (z : PZip) (size : Nat) : PZip :=
  if pb_can_split z.cur size then pz_merge_next (pz_next (pz_split z size)) else z

/-- `block_trim_free_leading` (tlsf.c lines 531-545): split `size -
block_header_overhead` off the front and return (focus) the second block. -/
def pz_trim_free_leading (z : PZip) (size : Nat) : PZip :=
  if pb_can_split z.cur size then pz_next (pz_split z (size - block_header_overhead)) else z

/-- `block_mark_as_free` (size unchanged, FREE bit set). -/
def pz_mark_free (z : PZip) : PZip := { z with cur := ⟨z.cur.size, true⟩ }

/-- `block_mark_as_used` (size unchanged, FREE bit cleared). -/
def pz_mark_used (z : PZip) : PZip := { z with cur := ⟨z.cur.size, false⟩ }

/-- `block_prepare_used` (tlsf.c lines 567-577), non-null case:
`block_trim_free` then `block_mark_as_used`. -/
def pz_prepare_used (z : PZip) (size : Nat) : PZip :=
  pz_mark_used (pz_trim_free z size)

/-- `tlsf_malloc` (tlsf.c lines 709-714) when `block_locate_free` returns
the focused free block: `block_prepare_used` at the adjusted size. -/
def pz_malloc (z : PZip) (adjust : Nat) : PZip := pz_prepare_used z adjust

/-- `tlsf_memalign` (tlsf.c lines 716-767) when a block is found: an
optional leading trim at the alignment gap, then `block_prepare_used`. -/
def pz_memalign (z : PZip) (gap adjust : Nat) : PZip :=
  pz_prepare_used (if gap ≠ 0 then pz_trim_free_leading z gap else z) adjust

/-- `tlsf_free` (tlsf.c lines 769-781) at a non-null pointer whose block is
the focus: mark free, merge with a free predecessor, merge with a free
successor, insert. -/
def pz_free (z : PZip) : PZip := pz_merge_next (pz_merge_prev (pz_mark_free z))

/-- `tlsf_realloc` (tlsf.c lines 835-849), the in-place branch: grow into a
free successor when the adjusted size exceeds the current size, then
`block_trim_used`.  (The cannot-grow branch is `tlsf_malloc` at another
focus followed by `tlsf_free` here, i.e. a composition of `pz_malloc` and
`pz_free`.) -/
def pz_realloc_inplace (z : PZip) (adjust : Nat) : PZip :=
  pz_trim_used (if adjust > z.cur.size then pz_mark_used (pz_merge_next z) else z) adjust

/-- `tlsf_add_pool` (tlsf.c lines 640-683) on success: the new pool chain is
one free block of `pool_bytes` followed by the zero-size used sentinel. -/
def pool_chain (pool_bytes : Nat) : List PBlock := [⟨pool_bytes, true⟩, ⟨0, false⟩]


/-- Boolean evaluator for `NAF`, for concrete witness chains. -/
def nafB : List PBlock → Bool
  | [] => true
  | [_] => true
  | a :: c :: l => (!(a.free && c.free)) && nafB (c :: l)


/-- The state `w1` with the null block's `prev_free` scratch field pointing
at 200 (as `insert_free_block` leaves it after a block at 200 was inserted
into an empty bucket): one free 12-byte block at 100 in bucket `(0, 3)`,
used successor at 116.  Used by the C6 analysis. -/
def w6 : TlsfState where
  nullAddr := 4
  fl_bitmap := 1
  sl_bitmap := fun fl => if fl = 0 then 8 else 0
  blocks := fun fl sl => if fl = 0 ∧ sl = 3 then 100 else 4
  prev_phys := fun a => if a = 116 then 100 else 0
  sizeF := fun a => if a = 100 then 13 else if a = 116 then 2 else 0
  next_free := fun _ => 4
  prev_free := fun a => if a = 4 then 200 else 4

/-- A concrete state with one free 32-byte block at 100 in bucket `(2, 0)`
and a used zero-size sentinel at 136; `tlsf_malloc(12)` splits it, leaving
a 16-byte remainder at 116 in bucket `(1, 0)`.  Used as the C6 witness. -/
def w6s : TlsfState where
  nullAddr := 4
  fl_bitmap := 4
  sl_bitmap := fun fl => if fl = 2 then 1 else 0
  blocks := fun fl sl => if fl = 2 ∧ sl = 0 then 100 else 4
  prev_phys := fun a => if a = 136 then 100 else 0
  sizeF := fun a => if a = 100 then 33 else if a = 136 then 2 else 0
  next_free := fun _ => 4
  prev_free := fun a => if a = 4 then 200 else 4

/-! ## Arithmetic facts about the primitives -/

theorem fls_aux_eq_log2 : ∀ (fuel w : Nat), w < 2 ^ fuel → fls_aux fuel w = Nat.log2 w := by
  intro fuel
  induction fuel with
  | zero =>
    intro w hw
    interval_cases w
    simp [fls_aux, Nat.log2]
  | succ n ih =>
    intro w hw
    rw [fls_aux, Nat.log2]
    by_cases h2 : w < 2
    · simp [h2, Nat.not_le_of_lt h2]
    · have hge : 2 ≤ w := Nat.le_of_not_lt h2
      have hp : (2 : Nat) ^ (n + 1) = 2 * 2 ^ n := by ring
      have : w / 2 < 2 ^ n := by omega
      simp [h2, hge, ih (w / 2) this]

theorem tlsf_fls_sizet_eq_log2 (w : Nat) (hw : w < U32) : tlsf_fls_sizet w = Nat.log2 w :=
  fls_aux_eq_log2 32 w hw

theorem log2_spec (n : Nat) (hn : n ≠ 0) :
    2 ^ Nat.log2 n ≤ n ∧ n < 2 ^ (Nat.log2 n + 1) := by
  constructor
  · exact (Nat.le_log2 hn).mp le_rfl
  · exact (Nat.log2_lt hn).mp (Nat.lt_succ_self _)

theorem log2_eq_iff (n k : Nat) (hn : n ≠ 0) :
    Nat.log2 n = k ↔ 2 ^ k ≤ n ∧ n < 2 ^ (k + 1) := by
  constructor
  · rintro rfl
    exact log2_spec n hn
  · rintro ⟨h1, h2⟩
    have ha : k ≤ Nat.log2 n := (Nat.le_log2 hn).mpr h1
    have hb : Nat.log2 n < k + 1 := (Nat.log2_lt hn).mpr h2
    omega

theorem ffs_aux_spec : ∀ (fuel w : Nat), w ≠ 0 → w < 2 ^ fuel →
    w.testBit (ffs_aux fuel w) = true ∧ ∀ j, j < ffs_aux fuel w → w.testBit j = false := by
  intro fuel
  induction fuel with
  | zero => intro w hw hlt; interval_cases w; omega
  | succ n ih =>
    intro w hw hlt
    rw [ffs_aux]
    by_cases hodd : w % 2 = 1
    · simp only [hodd, if_true]
      refine ⟨?_, by omega⟩
      simpa [Nat.testBit_zero] using hodd
    · have hw2 : w / 2 ≠ 0 := by omega
      have hp : (2 : Nat) ^ (n + 1) = 2 * 2 ^ n := by ring
      have hlt2 : w / 2 < 2 ^ n := by omega
      obtain ⟨h1, h2⟩ := ih (w / 2) hw2 hlt2
      simp only [hodd, if_false]
      constructor
      · rw [Nat.testBit_add_one]; exact h1
      · intro j hj
        match j with
        | 0 => simp [Nat.testBit_zero]; omega
        | j + 1 =>
          rw [Nat.testBit_add_one]
          exact h2 j (by omega)

theorem tlsf_ffs_spec (w : Nat) (hw : w ≠ 0) (hlt : w < U32) :
    w.testBit (tlsf_ffs w) = true ∧ ∀ j, j < tlsf_ffs w → w.testBit j = false :=
  ffs_aux_spec 32 w hw hlt

/-- `y &&& (2^k - 1) = y % 2^k`: the masking step used by the alignment
helpers, for power-of-two alignment. -/
theorem and_two_pow_sub_one (y k : Nat) : y &&& (2 ^ k - 1) = y % 2 ^ k := by
  apply Nat.eq_of_testBit_eq
  intro i
  rw [Nat.testBit_and, Nat.testBit_two_pow_sub_one, Nat.testBit_mod_two_pow]
  cases Nat.decLt i k with
  | isTrue h => simp [h]
  | isFalse h => simp [h]

theorem align_up_two_pow (x k : Nat) :
    align_up x (2 ^ k) = (x + (2 ^ k - 1)) - (x + (2 ^ k - 1)) % 2 ^ k := by
  unfold align_up
  rw [and_two_pow_sub_one]

theorem align_ptr_eq_align_up (p a : Nat) : align_ptr p a = align_up p a := rfl

theorem align_up_le (x k : Nat) : x ≤ align_up x (2 ^ k) := by
  rw [align_up_two_pow]
  have h2 : 0 < 2 ^ k := Nat.pos_pow_of_pos k (by omega)
  have := Nat.mod_lt (x + (2 ^ k - 1)) h2
  omega

theorem align_up_lt (x k : Nat) : align_up x (2 ^ k) < x + 2 ^ k := by
  rw [align_up_two_pow]
  have h2 : 0 < 2 ^ k := Nat.pos_pow_of_pos k (by omega)
  omega

theorem align_up_dvd (x k : Nat) : 2 ^ k ∣ align_up x (2 ^ k) := by
  rw [align_up_two_pow]
  have := Nat.mod_add_div (x + (2 ^ k - 1)) (2 ^ k)
  refine ⟨(x + (2 ^ k - 1)) / 2 ^ k, by omega⟩

theorem align_up_eq_self (x k : Nat) (h : 2 ^ k ∣ x) : align_up x (2 ^ k) = x := by
  obtain ⟨c, rfl⟩ := h
  rw [align_up_two_pow]
  have h2 : 0 < 2 ^ k := Nat.pos_pow_of_pos k (by omega)
  have hm : (2 ^ k * c + (2 ^ k - 1)) % 2 ^ k = 2 ^ k - 1 := by
    rw [Nat.mul_add_mod, Nat.mod_eq_of_lt (by omega)]
  omega

/-! ## Characterizing the insert mapping -/

theorem mapping_insert_small (size : Nat) (h : size < 16) :
    mapping_insert size = (0, size / 4) := by
  simp [mapping_insert, SMALL_BLOCK_SIZE, SL_INDEX_COUNT, FL_INDEX_SHIFT,
    SL_INDEX_COUNT_LOG2, ALIGN_SIZE_LOG2, h]

theorem mapping_insert_large (size : Nat) (h16 : 16 ≤ size) (h32 : size < U32) :
    mapping_insert size =
      (Nat.log2 size - 3, size / 2 ^ (Nat.log2 size - 2) - 4) := by
  have hfls : tlsf_fls_sizet size = Nat.log2 size := tlsf_fls_sizet_eq_log2 size h32
  have hsmall : ¬size < SMALL_BLOCK_SIZE := by
    simp only [SMALL_BLOCK_SIZE, FL_INDEX_SHIFT, SL_INDEX_COUNT_LOG2, ALIGN_SIZE_LOG2]
    omega
  have he : 4 ≤ Nat.log2 size := (Nat.le_log2 (by omega)).mpr (by norm_num; omega)
  obtain ⟨hlo, hhi⟩ := log2_spec size (by omega)
  set e := Nat.log2 size with hedef
  have hg : 0 < 2 ^ (e - 2) := Nat.pos_pow_of_pos _ (by omega)
  have hq4 : 4 ≤ size / 2 ^ (e - 2) := by
    apply Nat.le_div_iff_mul_le hg |>.mpr
    calc 4 * 2 ^ (e - 2) = 2 ^ 2 * 2 ^ (e - 2) := by norm_num
    _ = 2 ^ e := by rw [← pow_add]; congr 1; omega
    _ ≤ size := hlo
  have hq8 : size / 2 ^ (e - 2) < 8 := by
    apply Nat.div_lt_iff_lt_mul hg |>.mpr
    calc size < 2 ^ (e + 1) := hhi
    _ = 8 * 2 ^ (e - 2) := by
        rw [show (8 : Nat) = 2 ^ 3 by norm_num, ← pow_add]; congr 1; omega
  have hxor : size / 2 ^ (e - 2) ^^^ 4 = size / 2 ^ (e - 2) - 4 := by
    set q := size / 2 ^ (e - 2)
    interval_cases q <;> decide
  simp only [mapping_insert, hsmall, if_false, hfls, ← hedef,
    SL_INDEX_COUNT_LOG2, FL_INDEX_SHIFT, ALIGN_SIZE_LOG2,
    Nat.shiftRight_eq_div_pow, Nat.shiftLeft_eq]
  rw [show (1 : Nat) * 2 ^ 2 = 4 by norm_num, hxor]

theorem lexLe_refl (a : Nat × Nat) : lexLe a a := Or.inr ⟨rfl, le_rfl⟩

theorem lexLe_antisymm {a b : Nat × Nat} (h1 : lexLe a b) (h2 : lexLe b a) : a = b := by
  obtain ⟨a1, a2⟩ := a
  obtain ⟨b1, b2⟩ := b
  simp only [lexLe] at h1 h2
  simp only [Prod.mk.injEq]
  omega

theorem log2_mono {s t : Nat} (h : s ≤ t) : Nat.log2 s ≤ Nat.log2 t := by
  by_cases hs : s = 0
  · subst hs
    simp [Nat.log2_zero]
  · exact (Nat.le_log2 (by omega)).mpr (le_trans (log2_spec s hs).1 h)

/-- Monotonicity of the insert mapping in the bucket order. -/
theorem mapping_insert_mono (s t : Nat) (hst : s ≤ t) (ht : t < U32) :
    lexLe (mapping_insert s) (mapping_insert t) := by
  have hs32 : s < U32 := lt_of_le_of_lt hst ht
  by_cases hts : t < 16
  · rw [mapping_insert_small s (by omega), mapping_insert_small t hts]
    right
    exact ⟨rfl, by omega⟩
  · by_cases hss : s < 16
    · rw [mapping_insert_small s hss, mapping_insert_large t (by omega) ht]
      left
      have h16t : (2 : Nat) ^ 4 ≤ t := by norm_num; omega
      have h4lt : 4 ≤ Nat.log2 t := (Nat.le_log2 (by omega)).mpr h16t
      simp only
      omega
    · rw [mapping_insert_large s (by omega) hs32, mapping_insert_large t (by omega) ht]
      have hes : 4 ≤ Nat.log2 s := (Nat.le_log2 (by omega)).mpr (by norm_num; omega)
      have hmono : Nat.log2 s ≤ Nat.log2 t := log2_mono hst
      rcases Nat.lt_or_ge (Nat.log2 s) (Nat.log2 t) with hlt | hge
      · left; simp only; omega
      · have heq : Nat.log2 s = Nat.log2 t := by omega
        right
        refine ⟨by simp only; omega, ?_⟩
        simp only [heq]
        have hdiv : s / 2 ^ (Nat.log2 t - 2) ≤ t / 2 ^ (Nat.log2 t - 2) :=
          Nat.div_le_div_right hst
        omega

theorem mapping_search_eq (size : Nat) (h4 : 4 ≤ size) :
    mapping_search size = mapping_insert (search_arg size) := by
  have : size ≥ 1 <<< SL_INDEX_COUNT_LOG2 := by
    simpa [SL_INDEX_COUNT_LOG2, Nat.shiftLeft_eq] using h4
  simp [mapping_search, this, search_arg]

/-- Bucket-minimum property: a multiple of `ALIGN_SIZE` stored in the bucket
that `mapping_search` selects is at least the request, provided request and
stored size are both multiples of 4 (true of every size the allocator ever
stores or searches for). -/
theorem mapping_search_bucket_min (size t : Nat)
    (h4s : 4 ∣ size) (h4t : 4 ∣ t) (hs0 : size ≠ 0) (hsmax : size ≤ block_size_max)
    (ht32 : t < U32)
    (heq : mapping_insert t = mapping_search size) : size ≤ t := by
  have hs4 : 4 ≤ size := by
    obtain ⟨c, rfl⟩ := h4s; omega
  have hmax : block_size_max = 2 ^ 30 := by decide
  rw [mapping_search_eq size hs4] at heq
  by_cases hsmall : size < 16
  · -- size ∈ {4, 8, 12}
    obtain ⟨c, rfl⟩ := h4s
    have hc : c = 1 ∨ c = 2 ∨ c = 3 := by omega
    have key : ∀ k, k = 1 ∨ k = 2 ∨ k = 3 →
        mapping_insert (search_arg (4 * k)) = (0, k) := by
      intro k hk
      rcases hk with rfl | rfl | rfl <;> decide
    rw [key c hc] at heq
    by_cases ht16 : t < 16
    · rw [mapping_insert_small t ht16] at heq
      have : t / 4 = c := by
        have := congrArg Prod.snd heq; simpa using this
      obtain ⟨d, rfl⟩ := h4t
      rw [Nat.mul_div_cancel_left d (by omega)] at this
      omega
    · rw [mapping_insert_large t (by omega) ht32] at heq
      have he4 : 4 ≤ Nat.log2 t := (Nat.le_log2 (by omega)).mpr (by norm_num; omega)
      have := congrArg Prod.fst heq
      simp only at this
      omega
  · -- 16 ≤ size
    have he4 : 4 ≤ Nat.log2 size := (Nat.le_log2 (by omega)).mpr (by norm_num; omega)
    obtain ⟨hlo, hhi⟩ := log2_spec size (by omega)
    set e := Nat.log2 size with hedef
    have hs32 : size < U32 := by
      have : (2 : Nat) ^ 30 < 2 ^ 32 := by norm_num
      simp only [U32]; omega
    have hfls : tlsf_fls_sizet size = e := tlsf_fls_sizet_eq_log2 size hs32
    have harg : search_arg size = size + (2 ^ (e - 2) - 1) := by
      simp [search_arg, hfls, Nat.shiftLeft_eq, SL_INDEX_COUNT_LOG2]
    have hg : 0 < 2 ^ (e - 2) := Nat.pos_pow_of_pos _ (by omega)
    have hgsz : 2 ^ (e - 2) ≤ 2 ^ e := Nat.pow_le_pow_right (by omega) (by omega)
    set a := search_arg size with hadef
    have ha16 : 16 ≤ a := by rw [harg]; omega
    have he30 : e ≤ 30 := by
      have : size ≤ 2 ^ 30 := by rw [← hmax]; exact hsmax
      have h30 : (2 : Nat) ^ e ≤ 2 ^ 30 := le_trans hlo this
      exact (Nat.pow_le_pow_iff_right (by omega)).mp h30
    have ha32 : a < U32 := by
      rw [harg]
      have h1 : size < 2 ^ (e + 1) := hhi
      have h2 : (2 : Nat) ^ (e + 1) ≤ 2 ^ 31 := Nat.pow_le_pow_right (by omega) (by omega)
      have h3 : (2 : Nat) ^ (e - 2) ≤ 2 ^ 28 := Nat.pow_le_pow_right (by omega) (by omega)
      have : (2 : Nat) ^ 31 + 2 ^ 28 < 2 ^ 32 := by norm_num
      simp only [U32] at *
      omega
    rw [mapping_insert_large a ha16 ha32] at heq
    -- a is in [2^e, 2^(e+2))
    have halo : 2 ^ e ≤ a := by rw [harg]; omega
    have hahi : a < 2 ^ (e + 1) + 2 ^ (e - 2) := by
      rw [harg]; omega
    have hea : Nat.log2 a = e ∨ Nat.log2 a = e + 1 := by
      have h1 : e ≤ Nat.log2 a := (Nat.le_log2 (by omega)).mpr halo
      have h2 : Nat.log2 a < e + 2 := by
        apply (Nat.log2_lt (by omega)).mpr
        have hpe : (2 : Nat) ^ (e + 1) + 2 ^ (e - 2) ≤ 2 ^ (e + 2) := by
          have h3 : (2 : Nat) ^ (e - 2) ≤ 2 ^ (e + 1) := Nat.pow_le_pow_right (by omega) (by omega)
          have h4 : (2 : Nat) ^ (e + 2) = 2 ^ (e + 1) + 2 ^ (e + 1) := by ring
          omega
        omega
      omega
    rcases hea with hcase | hcase
    · -- no overflow into the next power: bucket floor is align_up(size, 2^(e-2))
      rw [hcase] at heq
      by_cases ht16 : t < 16
      · rw [mapping_insert_small t ht16] at heq
        have := congrArg Prod.fst heq
        simp only at this
        omega
      · rw [mapping_insert_large t (by omega) ht32] at heq
        have het4 : 4 ≤ Nat.log2 t := (Nat.le_log2 (by omega)).mpr (by norm_num; omega)
        have hfl := congrArg Prod.fst heq
        have hsl := congrArg Prod.snd heq
        simp only at hfl hsl
        have hete : Nat.log2 t = e := by omega
        rw [hete] at hsl
        -- t / g = a / g, hence t ≥ g * (a / g) ≥ size
        obtain ⟨htlo, hthi⟩ := log2_spec t (by omega)
        rw [hete] at htlo hthi
        have hq4t : 4 ≤ t / 2 ^ (e - 2) := by
          apply Nat.le_div_iff_mul_le hg |>.mpr
          calc 4 * 2 ^ (e - 2) = 2 ^ 2 * 2 ^ (e - 2) := by norm_num
          _ = 2 ^ e := by rw [← pow_add]; congr 1; omega
          _ ≤ t := htlo
        have hq4a : 4 ≤ a / 2 ^ (e - 2) := by
          apply Nat.le_div_iff_mul_le hg |>.mpr
          calc 4 * 2 ^ (e - 2) = 2 ^ 2 * 2 ^ (e - 2) := by norm_num
          _ = 2 ^ e := by rw [← pow_add]; congr 1; omega
          _ ≤ a := halo
        have hqeq : t / 2 ^ (e - 2) = a / 2 ^ (e - 2) := by omega
        have hta := Nat.div_add_mod t (2 ^ (e - 2))
        rw [hqeq] at hta
        have haa := Nat.div_add_mod a (2 ^ (e - 2))
        have hma : a % 2 ^ (e - 2) < 2 ^ (e - 2) := Nat.mod_lt _ hg
        have hmt : t % 2 ^ (e - 2) < 2 ^ (e - 2) := Nat.mod_lt _ hg
        -- t ≥ g*(a/g) = a - a%g ≥ (size + g - 1) - (g - 1) = size
        have harga : a = size + (2 ^ (e - 2) - 1) := harg
        omega
    · -- overflow: the selected bucket starts at 2^(e+1) > size
      rw [hcase] at heq
      by_cases ht16 : t < 16
      · rw [mapping_insert_small t ht16] at heq
        have := congrArg Prod.fst heq
        simp only at this
        omega
      · rw [mapping_insert_large t (by omega) ht32] at heq
        have het4 : 4 ≤ Nat.log2 t := (Nat.le_log2 (by omega)).mpr (by norm_num; omega)
        have hfl := congrArg Prod.fst heq
        simp only at hfl
        have hete : Nat.log2 t = e + 1 := by omega
        obtain ⟨htlo, _⟩ := log2_spec t (by omega)
        rw [hete] at htlo
        omega

/-- Fit: any 4-divisible size stored in a bucket lexicographically at or above
the bucket chosen by `mapping_search` is at least the (4-divisible) request. -/
theorem fit_of_bucket_ge (size t : Nat)
    (h4s : 4 ∣ size) (h4t : 4 ∣ t) (hs0 : size ≠ 0) (hsmax : size ≤ block_size_max)
    (ht32 : t < U32)
    (hlex : lexLe (mapping_search size) (mapping_insert t)) : size ≤ t := by
  by_contra hlt
  push_neg at hlt
  have hs4 : 4 ≤ size := by obtain ⟨c, rfl⟩ := h4s; omega
  have harg4 : 4 ≤ search_arg size := by
    simp only [search_arg]; omega
  have hs32 : size < U32 := by
    have : block_size_max < U32 := by decide
    omega
  have harg32 : search_arg size < U32 := by
    simp only [search_arg, SL_INDEX_COUNT_LOG2]
    have hfls : tlsf_fls_sizet size = Nat.log2 size := tlsf_fls_sizet_eq_log2 size hs32
    rw [hfls, Nat.shiftLeft_eq]
    have h30 : Nat.log2 size ≤ 30 := by
      have hmax : block_size_max = 2 ^ 30 := by decide
      have h1 : (2 : Nat) ^ Nat.log2 size ≤ 2 ^ 30 :=
        le_trans (log2_spec size (by omega)).1 (by omega)
      exact (Nat.pow_le_pow_iff_right (by omega)).mp h1
    have h2 : (1 : Nat) * 2 ^ (Nat.log2 size - 2) ≤ 2 ^ 28 := by
      rw [one_mul]
      exact Nat.pow_le_pow_right (by omega) (by omega)
    have hmax : block_size_max = 2 ^ 30 := by decide
    have : (2 : Nat) ^ 30 + 2 ^ 28 < 2 ^ 32 := by norm_num
    simp only [U32] at *
    omega
  have hle : t ≤ search_arg size := by
    simp only [search_arg]; omega
  have hmono : lexLe (mapping_insert t) (mapping_insert (search_arg size)) :=
    mapping_insert_mono t (search_arg size) hle harg32
  rw [← mapping_search_eq size hs4] at hmono
  have heq : mapping_search size = mapping_insert t := lexLe_antisymm hlex hmono
  have := mapping_search_bucket_min size t h4s h4t hs0 hsmax ht32 heq.symm
  omega

/-! ## Values of the derived constants -/

theorem ALIGN_SIZE_eq : ALIGN_SIZE = 4 := rfl

theorem SL_INDEX_COUNT_eq : SL_INDEX_COUNT = 4 := rfl

theorem SMALL_BLOCK_SIZE_eq : SMALL_BLOCK_SIZE = 16 := rfl

theorem FL_INDEX_COUNT_eq : FL_INDEX_COUNT = 27 := rfl

theorem block_size_min_eq : block_size_min = 12 := rfl

theorem block_size_max_eq : block_size_max = 2 ^ 30 := by decide

/-! ## Claim C10: the insert mapping's bucket intervals -/

/-- C10: for every size with `SMALL_BLOCK_SIZE ≤ size < block_size_max`,
`mapping_insert` computes `fl = fls(size) - (FL_INDEX_SHIFT - 1)` and `sl` the
next `SL_INDEX_COUNT_LOG2` bits below the top bit, and the size lies in the
half-open interval
`[2^(fl+FL_INDEX_SHIFT-1) * (1 + sl/SL_INDEX_COUNT), 2^(fl+FL_INDEX_SHIFT-1) * (1 + (sl+1)/SL_INDEX_COUNT))`
(stated multiplied through by `SL_INDEX_COUNT` to stay in `Nat`):
second-level lists linearly subdivide each power-of-two range. -/
theorem C10_mapping_insert_interval (size : Nat)
    (h1 : SMALL_BLOCK_SIZE ≤ size) (h2 : size < block_size_max) :
    (mapping_insert size).1 = tlsf_fls_sizet size - (FL_INDEX_SHIFT - 1) ∧
    (mapping_insert size).2 =
      size / 2 ^ (tlsf_fls_sizet size - SL_INDEX_COUNT_LOG2) % SL_INDEX_COUNT ∧
    2 ^ ((mapping_insert size).1 + FL_INDEX_SHIFT - 1) *
        (SL_INDEX_COUNT + (mapping_insert size).2) ≤ size * SL_INDEX_COUNT ∧
    size * SL_INDEX_COUNT <
      2 ^ ((mapping_insert size).1 + FL_INDEX_SHIFT - 1) *
        (SL_INDEX_COUNT + (mapping_insert size).2 + 1) := by
  rw [SMALL_BLOCK_SIZE_eq] at h1
  rw [block_size_max_eq] at h2
  have h32 : size < U32 := by
    have : (2 : Nat) ^ 30 < 2 ^ 32 := by norm_num
    simp only [U32]; omega
  have hfls : tlsf_fls_sizet size = Nat.log2 size := tlsf_fls_sizet_eq_log2 size h32
  have heq := mapping_insert_large size h1 h32
  have he4 : 4 ≤ Nat.log2 size := (Nat.le_log2 (by omega)).mpr (by norm_num; omega)
  obtain ⟨hlo, hhi⟩ := log2_spec size (by omega)
  set e := Nat.log2 size with hedef
  have hg : 0 < 2 ^ (e - 2) := Nat.pos_pow_of_pos _ (by omega)
  have hfl1 : (mapping_insert size).1 = e - 3 := by rw [heq]
  have hsl1 : (mapping_insert size).2 = size / 2 ^ (e - 2) - 4 := by rw [heq]
  have hq4 : 4 ≤ size / 2 ^ (e - 2) := by
    apply Nat.le_div_iff_mul_le hg |>.mpr
    calc 4 * 2 ^ (e - 2) = 2 ^ 2 * 2 ^ (e - 2) := by norm_num
    _ = 2 ^ e := by rw [← pow_add]; congr 1; omega
    _ ≤ size := hlo
  have hq8 : size / 2 ^ (e - 2) < 8 := by
    apply Nat.div_lt_iff_lt_mul hg |>.mpr
    calc size < 2 ^ (e + 1) := hhi
    _ = 8 * 2 ^ (e - 2) := by
        rw [show (8 : Nat) = 2 ^ 3 by norm_num, ← pow_add]; congr 1; omega
  have hgq : 2 ^ (e - 2) * (size / 2 ^ (e - 2)) ≤ size := by
    rw [mul_comm]
    exact Nat.div_mul_le_self size (2 ^ (e - 2))
  have hgq1 : size < 2 ^ (e - 2) * (size / 2 ^ (e - 2) + 1) := by
    have hdm := Nat.div_add_mod size (2 ^ (e - 2))
    have hml := Nat.mod_lt size hg
    have hexp : 2 ^ (e - 2) * (size / 2 ^ (e - 2) + 1) =
        2 ^ (e - 2) * (size / 2 ^ (e - 2)) + 2 ^ (e - 2) := by ring
    omega
  have hepow : (2 : Nat) ^ e = 4 * 2 ^ (e - 2) := by
    calc (2 : Nat) ^ e = 2 ^ 2 * 2 ^ (e - 2) := by rw [← pow_add]; congr 1; omega
    _ = 4 * 2 ^ (e - 2) := by norm_num
  rw [hfl1, hsl1, hfls]
  simp only [SL_INDEX_COUNT_eq, SL_INDEX_COUNT_LOG2, FL_INDEX_SHIFT, ALIGN_SIZE_LOG2]
  have hidx : e - 3 + 4 - 1 = e := by omega
  rw [hidx]
  refine ⟨trivial, by omega, ?_, ?_⟩
  · have h1' : 2 ^ e * (4 + (size / 2 ^ (e - 2) - 4)) =
        4 * (2 ^ (e - 2) * (size / 2 ^ (e - 2))) := by
      rw [show 4 + (size / 2 ^ (e - 2) - 4) = size / 2 ^ (e - 2) by omega, hepow]
      ring
    rw [h1']
    omega
  · have h2' : 2 ^ e * (4 + (size / 2 ^ (e - 2) - 4) + 1) =
        4 * (2 ^ (e - 2) * (size / 2 ^ (e - 2) + 1)) := by
      rw [show 4 + (size / 2 ^ (e - 2) - 4) + 1 = size / 2 ^ (e - 2) + 1 by omega, hepow]
      ring
    rw [h2']
    omega

/-- Witness for C10 at the concrete size 100 (bucket `(3, 2)`,
interval `[384, 448)`). -/
theorem C10_witness :
    SMALL_BLOCK_SIZE ≤ 100 ∧
    ((mapping_insert 100).1 = tlsf_fls_sizet 100 - (FL_INDEX_SHIFT - 1) ∧
     (mapping_insert 100).2 =
       100 / 2 ^ (tlsf_fls_sizet 100 - SL_INDEX_COUNT_LOG2) % SL_INDEX_COUNT ∧
     2 ^ ((mapping_insert 100).1 + FL_INDEX_SHIFT - 1) *
         (SL_INDEX_COUNT + (mapping_insert 100).2) ≤ 100 * SL_INDEX_COUNT ∧
     100 * SL_INDEX_COUNT <
       2 ^ ((mapping_insert 100).1 + FL_INDEX_SHIFT - 1) *
         (SL_INDEX_COUNT + (mapping_insert 100).2 + 1)) :=
  ⟨by decide, C10_mapping_insert_interval 100 (by decide) (by decide)⟩

/-! ## Claim C3: the first-level index is not always in bounds (code bug)

For the in-range request `2^30 - 1` (indeed for any request in
`[2^30 - 2^27 + 1, 2^30 - 1]`), `adjust_request_size` returns a non-zero
adjusted size, yet `mapping_search`'s round-up pushes the size past the top
first-level class, producing `fl = 27 = FL_INDEX_COUNT`; the accesses
`sl_bitmap[fl]` and `blocks[fl][sl]` in `search_suitable_block` then read
past the ends of the `control_t` arrays.  (Upstream TLSF later guarded the
only call site of `mapping_search` with exactly `if (fl < FL_INDEX_COUNT)`.) -/

theorem C3_search_index_out_of_range :
    adjust_request_size (2 ^ 30 - 1) ALIGN_SIZE ≠ 0 ∧
    (mapping_search (adjust_request_size (2 ^ 30 - 1) ALIGN_SIZE)).1 = FL_INDEX_COUNT := by
  decide


/-! ## Helper lemmas about the state operations -/

theorem adjust_request_size_eq_self (cur : Nat)
    (h4 : 4 ∣ cur) (hmin : block_size_min ≤ cur) (hmax : cur < block_size_max) :
    adjust_request_size cur ALIGN_SIZE = cur := by
  rw [block_size_min_eq] at hmin
  unfold adjust_request_size
  rw [if_pos ⟨by omega, hmax⟩]
  have he : align_up cur ALIGN_SIZE = cur := by
    have h : ALIGN_SIZE = 2 ^ 2 := rfl
    rw [h]
    exact align_up_eq_self cur 2 (by simpa using h4)
  rw [he, block_size_min_eq]
  omega

theorem block_trim_used_no_split (s : TlsfState) (b size : Nat)
    (h : ¬ sizeof_block_header + size ≤ block_size s b) :
    block_trim_used s b size = s := by
  unfold block_trim_used block_can_split
  simp [h]

theorem tlsf_malloc_fail_state (s : TlsfState) (size : Nat)
    (h : (tlsf_malloc s size).2 = 0) : (tlsf_malloc s size).1 = s := by
  unfold tlsf_malloc block_prepare_used block_locate_free at h ⊢
  dsimp only at h ⊢
  split_ifs at h ⊢
  all_goals first
  | rfl
  | simp_all [block_to_ptr, block_start_offset]

/-! ## Claim C4: zero-size and oversize requests return null -/

/-- C4: `tlsf_malloc(0)` returns null, and for every `size ≥ block_size_max`
`tlsf_malloc(size)` returns null: `adjust_request_size` yields 0 in both
cases and `block_locate_free(0)` performs no search and returns no block.
Neither call changes the allocator state. -/
theorem C4_malloc_zero_oversize (s : TlsfState) (size : Nat)
    (h : block_size_max ≤ size) :
    tlsf_malloc s 0 = (s, 0) ∧ tlsf_malloc s size = (s, 0) ∧
    block_locate_free s 0 = (s, 0) := by
  have h0 : adjust_request_size 0 ALIGN_SIZE = 0 := by
    unfold adjust_request_size
    simp
  have h1 : adjust_request_size size ALIGN_SIZE = 0 := by
    unfold adjust_request_size
    rw [if_neg]
    rintro ⟨-, h2⟩
    omega
  refine ⟨?_, ?_, ?_⟩
  · unfold tlsf_malloc
    rw [h0]
    unfold block_locate_free block_prepare_used
    simp
  · unfold tlsf_malloc
    rw [h1]
    unfold block_locate_free block_prepare_used
    simp
  · unfold block_locate_free
    simp

/-- Witness for C4 at `size = 2^30 = block_size_max` on a concrete state. -/
theorem C4_witness :
    block_size_max ≤ 2 ^ 30 ∧
    (tlsf_malloc wBase 0 = (wBase, 0) ∧ tlsf_malloc wBase (2 ^ 30) = (wBase, 0) ∧
     block_locate_free wBase 0 = (wBase, 0)) :=
  ⟨by decide, C4_malloc_zero_oversize wBase (2 ^ 30) (by decide)⟩

/-! ## Claim C7: realloc to the current block size is the identity -/

/-- C7: for a pointer `p` to a currently allocated (used) block — whose size
is a multiple of `ALIGN_SIZE` in `[block_size_min, block_size_max)`, as for
every block the allocator creates — `tlsf_realloc(p, block_size(p))` returns
`p` unchanged, and the allocator state is untouched: the adjusted size equals
the current size, so the grow branches are skipped, and `block_trim_used`
does not split because `block_can_split` requires
`sizeof(block_header_t) + size` bytes. -/
theorem C7_realloc_identity (s : TlsfState) (ptr : Nat) (hptr : ptr ≠ 0)
    (hused : ¬ block_is_free s (block_from_ptr ptr))
    (hmin : block_size_min ≤ block_size s (block_from_ptr ptr))
    (hdvd : 4 ∣ block_size s (block_from_ptr ptr))
    (hmax : block_size s (block_from_ptr ptr) < block_size_max) :
    tlsf_realloc s ptr (block_size s (block_from_ptr ptr)) = (s, ptr) := by
  have hmin' : (12 : Nat) ≤ block_size s (block_from_ptr ptr) := by
    rw [block_size_min_eq] at hmin; exact hmin
  have hadj : adjust_request_size (block_size s (block_from_ptr ptr)) ALIGN_SIZE =
      block_size s (block_from_ptr ptr) :=
    adjust_request_size_eq_self _ hdvd hmin hmax
  unfold tlsf_realloc
  rw [if_neg (by rintro ⟨-, h⟩; omega), if_neg (by simpa using hptr)]
  rw [hadj]
  rw [if_neg (by rintro ⟨h, -⟩; omega)]
  rw [if_neg (by omega)]
  dsimp only
  rw [block_trim_used_no_split s (block_from_ptr ptr) _ (by
    rw [show sizeof_block_header = 16 from rfl]; omega)]

/-- Witness for C7: the used block of size 20 at address 100 in `wBase`. -/
theorem C7_witness :
    (108 : Nat) ≠ 0 ∧ tlsf_realloc wBase 108 (block_size wBase (block_from_ptr 108)) = (wBase, 108) :=
  ⟨by decide, C7_realloc_identity wBase 108 (by decide) (by decide) (by decide)
    (by decide) (by decide)⟩

/-! ## Claim C8: realloc's reallocate-and-copy branch on malloc failure -/

/-- C8: in `tlsf_realloc`'s cannot-grow-in-place branch (the adjusted size
exceeds the current block size, and the next physical block is not free or
the combined size is still too small), if the internal `tlsf_malloc` returns
null then `tlsf_realloc` returns null and the allocator state is unchanged:
the block at `ptr` keeps its size, flags and header fields, no copy is
performed, and the caller's pointer remains valid. -/
theorem C8_realloc_malloc_fail (s : TlsfState) (ptr size : Nat)
    (hptr : ptr ≠ 0) (hsz : size ≠ 0)
    (hgrow : adjust_request_size size ALIGN_SIZE > block_size s (block_from_ptr ptr))
    (hnofit : ¬ block_is_free s (block_next s (block_from_ptr ptr)) ∨
      adjust_request_size size ALIGN_SIZE >
        block_size s (block_from_ptr ptr) +
          block_size s (block_next s (block_from_ptr ptr)) + block_header_overhead)
    (hfail : (tlsf_malloc s size).2 = 0) :
    tlsf_realloc s ptr size = (s, 0) := by
  unfold tlsf_realloc
  rw [if_neg (by rintro ⟨-, h⟩; exact hsz h), if_neg (by simpa using hptr)]
  rw [if_pos ⟨hgrow, hnofit⟩]
  rw [if_neg (by simpa using hfail)]
  rw [tlsf_malloc_fail_state s size hfail]

/-- Witness for C8: ask for 40 bytes in place of the 20-byte used block of
`wBase`; its neighbor is the used sentinel and the index is empty, so the
inner `tlsf_malloc` fails. -/
theorem C8_witness :
    (tlsf_malloc wBase 40).2 = 0 ∧ tlsf_realloc wBase 108 40 = (wBase, 0) :=
  ⟨by decide, C8_realloc_malloc_fail wBase 108 40 (by decide) (by decide) (by decide)
    (by decide) (by decide)⟩



/-! ## Claim C9: pool-creation error reporting

The `tlsf_add_pool` half of the claim matches the source.  The `tlsf_create`
half does not: in this repository `tlsf_create` has return type `void`
(tlsf.h line 26, tlsf.c line 689), so a misaligned `mem` cannot be "reported
by a false/zero return" — the error is only printed, and the function
returns no value at all.  `tlsf_create` does leave the allocator in its
prior state in that case. -/

/-- C9 counterexample: the claim asserts `tlsf_create` reports a misaligned
`mem` by a false/zero return.  `tlsf_create` returns `void` (modelled as
`Unit`), so its return value on the misaligned input `mem = 1` is identical
to its return value on the aligned input `mem = 4` — there is no
false/zero-return channel — even though the two calls differ observably in
their effect on the allocator (the aligned call installs the control
structure at 4, the misaligned call leaves the prior state untouched). -/
theorem C9_counterexample :
    (tlsf_create_ret wBase 1).1 = (tlsf_create_ret wBase 8).1 ∧
    (tlsf_create_ret wBase 1).2 = wBase ∧
    (tlsf_create_ret wBase 8).2.nullAddr ≠ wBase.nullAddr :=
  ⟨rfl, rfl, by decide⟩

/-- C9 (amended): `tlsf_add_pool` returns 0 without modifying any allocator
state when `mem` is not aligned to `ALIGN_SIZE` or when
`align_down(bytes - 2*block_header_overhead, ALIGN_SIZE)` falls outside
`[block_size_min, block_size_max]`, and returns 1 otherwise; `tlsf_create`
returns `void` — it reports a misaligned `mem` only by a printed message —
and leaves the allocator in its prior state in that case. -/
theorem C9_add_pool_errors (s : TlsfState) (mem bytes mem' : Nat) :
    ((mem % ALIGN_SIZE ≠ 0 ∨
      align_down ((bytes + U32 - 2 * block_header_overhead) % U32) ALIGN_SIZE < block_size_min ∨
      block_size_max < align_down ((bytes + U32 - 2 * block_header_overhead) % U32) ALIGN_SIZE) →
        tlsf_add_pool s mem bytes = (s, 0)) ∧
    ((mem % ALIGN_SIZE = 0 ∧
      block_size_min ≤ align_down ((bytes + U32 - 2 * block_header_overhead) % U32) ALIGN_SIZE ∧
      align_down ((bytes + U32 - 2 * block_header_overhead) % U32) ALIGN_SIZE ≤ block_size_max) →
        (tlsf_add_pool s mem bytes).2 = 1) ∧
    (mem' % ALIGN_SIZE ≠ 0 → tlsf_create s mem' = s) := by
  refine ⟨?_, ?_, ?_⟩
  · intro h
    unfold tlsf_add_pool
    dsimp only
    rcases Nat.decEq (mem % ALIGN_SIZE) 0 with ha | ha
    · rw [if_pos ha]
    · rw [if_neg (by omega)]
      rw [if_pos (by omega)]
  · rintro ⟨h1, h2, h3⟩
    unfold tlsf_add_pool
    dsimp only
    rw [if_neg (by omega), if_neg (by omega)]
  · intro h
    unfold tlsf_create
    rw [if_pos h]

/-- Witness for C9: a misaligned pool (`mem = 1`) is rejected with 0 and no
state change; a valid pool (`mem = 8`, `bytes = 100`) is accepted with 1;
a misaligned `tlsf_create` (`mem = 2`) leaves the prior state. -/
theorem C9_witness :
    tlsf_add_pool wBase 1 100 = (wBase, 0) ∧
    (tlsf_add_pool wBase 8 100).2 = 1 ∧
    tlsf_create wBase 2 = wBase :=
  ⟨(C9_add_pool_errors wBase 1 100 2).1 (by decide),
   (C9_add_pool_errors wBase 8 100 2).2.1 (by decide),
   (C9_add_pool_errors wBase 8 100 2).2.2 (by decide)⟩



/-! ## The bitmap search -/

theorem mask_ge_testBit (k j : Nat) :
    (mask_ge k).testBit j = (decide (k ≤ j) && decide (j < 32)) := by
  unfold mask_ge U32
  rw [Nat.testBit_mod_two_pow, Nat.testBit_shiftLeft, Nat.testBit_two_pow_sub_one]
  by_cases h1 : k ≤ j <;> by_cases h2 : j < 32 <;>
    simp [h1, h2, Nat.not_le.mpr, ge_iff_le] <;> omega

/-- The three possible outcomes of `search_suitable_block`: either both masked
bitmap probes are empty and the C null pointer is returned, or a bucket
`(fl', sl')` lexicographically at or above `(fl, sl)` whose second-level bit
is set is selected and its head returned. -/
theorem search_suitable_cases (s : TlsfState) (fl sl : Nat)
    (hfl : ∀ f, s.fl_bitmap.testBit f = true → s.sl_bitmap f ≠ 0)
    (hf32 : s.fl_bitmap < U32) (hs32 : ∀ f, s.sl_bitmap f < U32) :
    (search_suitable_block s fl sl = (0, fl, sl) ∧
      s.sl_bitmap fl &&& mask_ge sl = 0 ∧ s.fl_bitmap &&& mask_ge (fl + 1) = 0) ∨
    (∃ fl' sl', search_suitable_block s fl sl = (s.blocks fl' sl', fl', sl') ∧
      (s.sl_bitmap fl').testBit sl' = true ∧ lexLe (fl, sl) (fl', sl')) := by
  unfold search_suitable_block
  dsimp only
  by_cases h1 : s.sl_bitmap fl &&& mask_ge sl ≠ 0
  · right
    rw [if_pos h1]
    have hlt : s.sl_bitmap fl &&& mask_ge sl < U32 :=
      lt_of_le_of_lt Nat.and_le_left (hs32 fl)
    obtain ⟨ht, -⟩ := tlsf_ffs_spec _ h1 hlt
    rw [Nat.testBit_and, Bool.and_eq_true] at ht
    refine ⟨fl, tlsf_ffs (s.sl_bitmap fl &&& mask_ge sl), rfl, ht.1, ?_⟩
    have hm := ht.2
    rw [mask_ge_testBit, Bool.and_eq_true, decide_eq_true_eq, decide_eq_true_eq] at hm
    exact Or.inr ⟨rfl, hm.1⟩
  · rw [if_neg h1]
    push_neg at h1
    by_cases h2 : s.fl_bitmap &&& mask_ge (fl + 1) = 0
    · left
      rw [if_pos h2]
      exact ⟨rfl, h1, h2⟩
    · right
      rw [if_neg h2]
      have hflt : s.fl_bitmap &&& mask_ge (fl + 1) < U32 :=
        lt_of_le_of_lt Nat.and_le_left hf32
      obtain ⟨htf, -⟩ := tlsf_ffs_spec _ h2 hflt
      rw [Nat.testBit_and, Bool.and_eq_true] at htf
      have hfl' := htf.1
      have hmk := htf.2
      rw [mask_ge_testBit, Bool.and_eq_true, decide_eq_true_eq, decide_eq_true_eq] at hmk
      have hsn : s.sl_bitmap (tlsf_ffs (s.fl_bitmap &&& mask_ge (fl + 1))) ≠ 0 :=
        hfl _ hfl'
      obtain ⟨hts, -⟩ := tlsf_ffs_spec _ hsn (hs32 _)
      exact ⟨_, _, rfl, hts, Or.inl (by omega)⟩

/-- A set bit implies the word is non-zero. -/
theorem testBit_ne_zero {v i : Nat} (h : v.testBit i = true) : v ≠ 0 := by
  intro h0
  subst h0
  simp [Nat.zero_testBit] at h

/-- A set bit of a 32-bit word sits below position 32. -/
theorem testBit_lt_32 {v i : Nat} (hv : v < U32) (h : v.testBit i = true) : i < 32 := by
  have h1 : 2 ^ i ≤ v := Nat.testBit_implies_ge h
  have h2 : (2 : Nat) ^ i < 2 ^ 32 := lt_of_le_of_lt h1 hv
  exact (Nat.pow_lt_pow_iff_right (by omega)).mp h2

/-- The complete fit-or-null analysis of `block_locate_free` under the index
invariants (for 4-divisible request sizes up to `block_size_max`, which is
what every call site passes). -/
theorem block_locate_free_spec (s : TlsfState) (size : Nat)
    (hm : ∀ fl sl, s.blocks fl sl ≠ s.nullAddr →
      mapping_insert (block_size s (s.blocks fl sl)) = (fl, sl))
    (hblk : ∀ fl sl, s.blocks fl sl ≠ s.nullAddr →
      block_is_free s (s.blocks fl sl) = true ∧ s.blocks fl sl ≠ 0 ∧
      4 ∣ block_size s (s.blocks fl sl) ∧ block_size s (s.blocks fl sl) < U32)
    (hsl : ∀ fl sl, (s.sl_bitmap fl).testBit sl = true → s.blocks fl sl ≠ s.nullAddr)
    (hfl : ∀ fl, s.fl_bitmap.testBit fl = true → s.sl_bitmap fl ≠ 0)
    (hfl2 : ∀ fl, s.sl_bitmap fl ≠ 0 → s.fl_bitmap.testBit fl = true)
    (hf32 : s.fl_bitmap < U32) (hs32 : ∀ fl, s.sl_bitmap fl < U32)
    (h4 : 4 ∣ size) (h0 : size ≠ 0) (hmax : size ≤ block_size_max) :
    ((block_locate_free s size).2 ≠ 0 →
      block_is_free s ((block_locate_free s size).2) = true ∧
      size ≤ block_size s ((block_locate_free s size).2)) ∧
    ((block_locate_free s size).2 = 0 ↔
      s.sl_bitmap (mapping_search size).1 &&& mask_ge (mapping_search size).2 = 0 ∧
      s.fl_bitmap &&& mask_ge ((mapping_search size).1 + 1) = 0) := by
  unfold block_locate_free
  rw [if_pos h0]
  dsimp only
  rcases search_suitable_cases s (mapping_search size).1 (mapping_search size).2 hfl hf32 hs32 with
    ⟨hs, hm1, hm2⟩ | ⟨fl', sl', hs, hbit, hlex⟩
  · rw [hs]
    dsimp only
    rw [if_neg (by simp)]
    exact ⟨by simp, by simp [hm1, hm2]⟩
  · rw [hs]
    dsimp only
    have hne : s.blocks fl' sl' ≠ s.nullAddr := hsl fl' sl' hbit
    obtain ⟨hfree, hnz, hdvd, hu32⟩ := hblk fl' sl' hne
    have hmap := hm fl' sl' hne
    have hfit : size ≤ block_size s (s.blocks fl' sl') := by
      apply fit_of_bucket_ge size _ h4 hdvd h0 hmax hu32
      rw [hmap]
      exact hlex
    rw [if_pos hnz]
    refine ⟨fun _ => ⟨hfree, hfit⟩, fun h => absurd h hnz, ?_⟩
    rintro ⟨hz1, hz2⟩
    exfalso
    have hsl32 : sl' < 32 := testBit_lt_32 (hs32 fl') hbit
    rcases hlex with hlt | ⟨heq, hle⟩
    · -- the first-level mask cannot be empty: fl' carries a set bit at or
      -- above (mapping_search size).1 + 1
      simp only at hlt
      have hne0 : s.sl_bitmap fl' ≠ 0 := testBit_ne_zero hbit
      have hfb := hfl2 fl' hne0
      have hfl32 : fl' < 32 := testBit_lt_32 hf32 hfb
      have : (s.fl_bitmap &&& mask_ge ((mapping_search size).1 + 1)).testBit fl' = true := by
        rw [Nat.testBit_and, hfb, mask_ge_testBit]
        simp only [Bool.true_and, Bool.and_eq_true, decide_eq_true_eq]
        omega
      exact testBit_ne_zero this hz2
    · -- the second-level mask cannot be empty: sl' carries a set bit at or
      -- above (mapping_search size).2
      simp only at heq hle
      have : (s.sl_bitmap (mapping_search size).1 &&&
          mask_ge (mapping_search size).2).testBit sl' = true := by
        rw [Nat.testBit_and, heq, hbit, mask_ge_testBit]
        simp only [Bool.true_and, Bool.and_eq_true, decide_eq_true_eq]
        omega
      exact testBit_ne_zero this hz1


/-! ## Claim C1: the located block fits the request -/

theorem w1_hm : ∀ fl sl, w1.blocks fl sl ≠ w1.nullAddr →
    mapping_insert (block_size w1 (w1.blocks fl sl)) = (fl, sl) := by
  intro fl sl h
  by_cases hc : fl = 0 ∧ sl = 3
  · obtain ⟨rfl, rfl⟩ := hc
    decide
  · exact absurd (by simp [w1, hc]) h

theorem w1_hblk : ∀ fl sl, w1.blocks fl sl ≠ w1.nullAddr →
    block_is_free w1 (w1.blocks fl sl) = true ∧ w1.blocks fl sl ≠ 0 ∧
    4 ∣ block_size w1 (w1.blocks fl sl) ∧ block_size w1 (w1.blocks fl sl) < U32 := by
  intro fl sl h
  by_cases hc : fl = 0 ∧ sl = 3
  · obtain ⟨rfl, rfl⟩ := hc
    refine ⟨by decide, by decide, by decide, by decide⟩
  · exact absurd (by simp [w1, hc]) h

theorem w1_hsl : ∀ fl sl, (w1.sl_bitmap fl).testBit sl = true →
    w1.blocks fl sl ≠ w1.nullAddr := by
  intro fl sl h
  by_cases hf : fl = 0
  · subst hf
    have h8 : w1.sl_bitmap 0 = 2 ^ 3 := by decide
    rw [h8, Nat.testBit_two_pow] at h
    have h3 : sl = 3 := by have := (by simpa using h : 3 = sl); omega
    subst h3
    decide
  · rw [show w1.sl_bitmap fl = if fl = 0 then 8 else 0 from rfl, if_neg hf] at h
    simp [Nat.zero_testBit] at h

theorem w1_hfl : ∀ fl, w1.fl_bitmap.testBit fl = true → w1.sl_bitmap fl ≠ 0 := by
  intro fl h
  have h1 : w1.fl_bitmap = 2 ^ 0 := by decide
  rw [h1, Nat.testBit_two_pow] at h
  have h0 : fl = 0 := by have := (by simpa using h : 0 = fl); omega
  subst h0
  decide

theorem w1_hfl2 : ∀ fl, w1.sl_bitmap fl ≠ 0 → w1.fl_bitmap.testBit fl = true := by
  intro fl h
  by_cases hf : fl = 0
  · subst hf
    decide
  · exact absurd (by rw [show w1.sl_bitmap fl = if fl = 0 then 8 else 0 from rfl, if_neg hf]) h

theorem w1_hs32 : ∀ fl, w1.sl_bitmap fl < U32 := by
  intro fl
  by_cases hf : fl = 0
  · subst hf; decide
  · rw [show w1.sl_bitmap fl = if fl = 0 then 8 else 0 from rfl, if_neg hf]
    decide

/-- C1 counterexample: the claim as stated quantifies over *every* non-zero
request size, but `block_locate_free` can return an undersized block when the
size is not a multiple of `ALIGN_SIZE`.  In the state `w1` — which satisfies
exactly the index invariant the claim names (every stored block's size maps
to its bucket under `mapping_insert`) — the request 13 maps to bucket
`(0, 3)` after rounding (13 + 1 = 14, still `[12, 16)`), and the head of that
bucket is the free block of size 12 < 13. -/
theorem C1_counterexample :
    (∀ fl sl, w1.blocks fl sl ≠ w1.nullAddr →
      mapping_insert (block_size w1 (w1.blocks fl sl)) = (fl, sl)) ∧
    (block_locate_free w1 13).2 ≠ 0 ∧
    block_size w1 ((block_locate_free w1 13).2) < 13 :=
  ⟨w1_hm, by decide, by decide⟩

/-- C1 (amended): for every non-zero request size that is a multiple of
`ALIGN_SIZE` and at most `block_size_max` — which is true of every adjusted
size the allocator ever searches for — `block_locate_free(size)` either
returns null or returns a free block `b` with `block_size(b) ≥ size`, under
the index invariant strengthened to record what the allocator maintains:
every stored block is free with a 4-aligned 32-bit size that `mapping_insert`
maps to its bucket, and the two bitmaps agree with the list heads.  Null is
returned exactly when the two masked bitmap probes of
`search_suitable_block` both come up empty. -/
theorem C1_locate_free (s : TlsfState) (size : Nat)
    (hm : ∀ fl sl, s.blocks fl sl ≠ s.nullAddr →
      mapping_insert (block_size s (s.blocks fl sl)) = (fl, sl))
    (hblk : ∀ fl sl, s.blocks fl sl ≠ s.nullAddr →
      block_is_free s (s.blocks fl sl) = true ∧ s.blocks fl sl ≠ 0 ∧
      4 ∣ block_size s (s.blocks fl sl) ∧ block_size s (s.blocks fl sl) < U32)
    (hsl : ∀ fl sl, (s.sl_bitmap fl).testBit sl = true → s.blocks fl sl ≠ s.nullAddr)
    (hfl : ∀ fl, s.fl_bitmap.testBit fl = true → s.sl_bitmap fl ≠ 0)
    (hfl2 : ∀ fl, s.sl_bitmap fl ≠ 0 → s.fl_bitmap.testBit fl = true)
    (hf32 : s.fl_bitmap < U32) (hs32 : ∀ fl, s.sl_bitmap fl < U32)
    (h4 : 4 ∣ size) (h0 : size ≠ 0) (hmax : size ≤ block_size_max) :
    ((block_locate_free s size).2 ≠ 0 →
      block_is_free s ((block_locate_free s size).2) = true ∧
      size ≤ block_size s ((block_locate_free s size).2)) ∧
    ((block_locate_free s size).2 = 0 ↔
      s.sl_bitmap (mapping_search size).1 &&& mask_ge (mapping_search size).2 = 0 ∧
      s.fl_bitmap &&& mask_ge ((mapping_search size).1 + 1) = 0) :=
  block_locate_free_spec s size hm hblk hsl hfl hfl2 hf32 hs32 h4 h0 hmax

/-- Witness for C1 at the 4-aligned request 12 against `w1`: the 12-byte free
block is found and fits. -/
theorem C1_witness :
    (4 : Nat) ∣ 12 ∧
    (((block_locate_free w1 12).2 ≠ 0 →
       block_is_free w1 ((block_locate_free w1 12).2) = true ∧
       12 ≤ block_size w1 ((block_locate_free w1 12).2)) ∧
     ((block_locate_free w1 12).2 = 0 ↔
       w1.sl_bitmap (mapping_search 12).1 &&& mask_ge (mapping_search 12).2 = 0 ∧
       w1.fl_bitmap &&& mask_ge ((mapping_search 12).1 + 1) = 0)) :=
  ⟨by decide, C1_locate_free w1 12 w1_hm w1_hblk w1_hsl w1_hfl w1_hfl2 (by decide) w1_hs32
    (by decide) (by decide) (by decide)⟩



/-! ## Further alignment arithmetic (for C5) -/

theorem align_up_div (x k : Nat) :
    align_up x (2 ^ k) = ((x + (2 ^ k - 1)) / 2 ^ k) * 2 ^ k := by
  rw [align_up_two_pow]
  have h := Nat.div_add_mod (x + (2 ^ k - 1)) (2 ^ k)
  rw [Nat.mul_comm] at h
  omega

theorem align_up_le_of_dvd (x m k : Nat) (hxm : x ≤ m) (hd : 2 ^ k ∣ m) :
    align_up x (2 ^ k) ≤ m := by
  obtain ⟨c, rfl⟩ := hd
  rw [align_up_div]
  have h2 : 0 < 2 ^ k := Nat.pos_pow_of_pos k (by omega)
  have hlt : x + (2 ^ k - 1) < (c + 1) * 2 ^ k := by
    have hexp : (c + 1) * 2 ^ k = 2 ^ k * c + 2 ^ k := by ring
    omega
  have hq : (x + (2 ^ k - 1)) / 2 ^ k < c + 1 := Nat.div_lt_iff_lt_mul h2 |>.mpr hlt
  calc ((x + (2 ^ k - 1)) / 2 ^ k) * 2 ^ k ≤ c * 2 ^ k :=
        Nat.mul_le_mul_right _ (by omega)
  _ = 2 ^ k * c := by ring

theorem align_up_add_left (m c k : Nat) (hd : 2 ^ k ∣ m) :
    align_up (m + c) (2 ^ k) = m + align_up c (2 ^ k) := by
  obtain ⟨d, rfl⟩ := hd
  rw [align_up_two_pow, align_up_two_pow]
  have h2 : 0 < 2 ^ k := Nat.pos_pow_of_pos k (by omega)
  have hmod : (2 ^ k * d + c + (2 ^ k - 1)) % 2 ^ k = (c + (2 ^ k - 1)) % 2 ^ k := by
    rw [Nat.add_assoc, Nat.add_comm (2 ^ k * d), Nat.add_mul_mod_self_left]
  have hml : (c + (2 ^ k - 1)) % 2 ^ k ≤ c + (2 ^ k - 1) := Nat.mod_le _ _
  rw [hmod]
  omega

theorem dvd_4_of_dvd_2_pow {v k : Nat} (hk : 3 ≤ k) (h : 2 ^ k ∣ v) : 4 ∣ v := by
  have : (4 : Nat) ∣ 2 ^ k := by
    have : (2 : Nat) ^ 2 ∣ 2 ^ k := Nat.pow_dvd_pow 2 (by omega)
    simpa using this
  exact dvd_trans this h


/-! ## Result-shape lemmas for the allocation entry points -/

theorem block_locate_free_zero (s : TlsfState) : block_locate_free s 0 = (s, 0) := by
  unfold block_locate_free
  simp

theorem block_locate_free_found (s : TlsfState) (size : Nat)
    (hfl : ∀ fl, s.fl_bitmap.testBit fl = true → s.sl_bitmap fl ≠ 0)
    (hf32 : s.fl_bitmap < U32) (hs32 : ∀ fl, s.sl_bitmap fl < U32)
    (h : (block_locate_free s size).2 ≠ 0) :
    ∃ fl' sl', (block_locate_free s size).2 = s.blocks fl' sl' ∧
      (s.sl_bitmap fl').testBit sl' = true ∧
      lexLe (mapping_search size) (fl', sl') := by
  unfold block_locate_free at h ⊢
  by_cases h0 : size ≠ 0
  · rw [if_pos h0] at h ⊢
    dsimp only at h ⊢
    rcases search_suitable_cases s (mapping_search size).1 (mapping_search size).2 hfl hf32 hs32
      with ⟨hs, -, -⟩ | ⟨fl', sl', hs, hbit, hlex⟩
    · rw [hs] at h ⊢
      dsimp only at h ⊢
      rw [if_neg (by simp)] at h
      simp at h
    · rw [hs] at h ⊢
      dsimp only at h ⊢
      by_cases hnz : s.blocks fl' sl' ≠ 0
      · rw [if_pos hnz] at h ⊢
        exact ⟨fl', sl', rfl, hbit, hlex⟩
      · rw [if_neg hnz] at h
        simp at h
  · rw [if_neg h0] at h
    simp at h

theorem block_locate_free_addr_fit (s : TlsfState) (size : Nat)
    (hm : ∀ fl sl, s.blocks fl sl ≠ s.nullAddr →
      mapping_insert (block_size s (s.blocks fl sl)) = (fl, sl))
    (hblk : ∀ fl sl, s.blocks fl sl ≠ s.nullAddr →
      block_is_free s (s.blocks fl sl) = true ∧ s.blocks fl sl ≠ 0 ∧
      4 ∣ block_size s (s.blocks fl sl) ∧ block_size s (s.blocks fl sl) < U32)
    (hsl : ∀ fl sl, (s.sl_bitmap fl).testBit sl = true → s.blocks fl sl ≠ s.nullAddr)
    (hfl : ∀ fl, s.fl_bitmap.testBit fl = true → s.sl_bitmap fl ≠ 0)
    (hf32 : s.fl_bitmap < U32) (hs32 : ∀ fl, s.sl_bitmap fl < U32)
    (haddr : ∀ fl sl, s.blocks fl sl ≠ s.nullAddr → (s.blocks fl sl) % 4 = 0)
    (h4 : 4 ∣ size) (h0 : size ≠ 0) (hmax : size ≤ block_size_max) :
    (block_locate_free s size).2 ≠ 0 →
      (block_locate_free s size).2 % 4 = 0 ∧
      size ≤ block_size s ((block_locate_free s size).2) := by
  intro h
  obtain ⟨fl', sl', heq, hbit, hlex⟩ := block_locate_free_found s size hfl hf32 hs32 h
  have hne := hsl fl' sl' hbit
  obtain ⟨-, -, hdvd, hu32⟩ := hblk fl' sl' hne
  have hmap := hm fl' sl' hne
  rw [heq]
  refine ⟨haddr fl' sl' hne, ?_⟩
  apply fit_of_bucket_ge size _ h4 hdvd h0 hmax hu32
  rw [hmap]
  exact hlex

theorem tlsf_malloc_result (s : TlsfState) (size : Nat) :
    (tlsf_malloc s size).2 = 0 ∨
    ((tlsf_malloc s size).2 =
       block_to_ptr ((block_locate_free s (adjust_request_size size ALIGN_SIZE)).2) ∧
     (block_locate_free s (adjust_request_size size ALIGN_SIZE)).2 ≠ 0) := by
  unfold tlsf_malloc block_prepare_used
  dsimp only
  by_cases h : (block_locate_free s (adjust_request_size size ALIGN_SIZE)).2 ≠ 0
  · right
    rw [if_pos h]
    exact ⟨rfl, h⟩
  · left
    rw [if_neg h]

/-- `adjust_request_size(size, ALIGN_SIZE)` is zero or a 4-aligned size in
`[block_size_min, block_size_max]`. -/
theorem adjust_request_size_props (size : Nat) :
    adjust_request_size size ALIGN_SIZE = 0 ∨
    (4 ∣ adjust_request_size size ALIGN_SIZE ∧
     block_size_min ≤ adjust_request_size size ALIGN_SIZE ∧
     adjust_request_size size ALIGN_SIZE ≤ block_size_max) := by
  unfold adjust_request_size
  by_cases hc : size ≠ 0 ∧ size < block_size_max
  · right
    rw [if_pos hc]
    have h4 : ALIGN_SIZE = 2 ^ 2 := rfl
    have hd : 4 ∣ align_up size ALIGN_SIZE := by
      rw [h4]
      simpa using align_up_dvd size 2
    have hle : align_up size ALIGN_SIZE ≤ block_size_max := by
      rw [h4]
      apply align_up_le_of_dvd size block_size_max 2 (by omega)
      rw [block_size_max_eq]
      exact Dvd.intro (2 ^ 28) (by norm_num)
    rw [block_size_min_eq]
    have hmax12 : (12 : Nat) ≤ block_size_max := by rw [block_size_max_eq]; norm_num
    rcases Nat.le_total (align_up size ALIGN_SIZE) 12 with hm | hm
    · rw [Nat.max_eq_right hm]
      exact ⟨by norm_num, le_rfl, hmax12⟩
    · rw [Nat.max_eq_left hm]
      exact ⟨hd, hm, hle⟩
  · left
    rw [if_neg hc]

theorem block_prepare_used_ptr (s : TlsfState) (block size : Nat) (h : block ≠ 0) :
    (block_prepare_used s block size).2 = block_to_ptr block := by
  unfold block_prepare_used
  rw [if_pos h]

theorem block_trim_free_leading_split (s : TlsfState) (block size : Nat)
    (h : sizeof_block_header + size ≤ block_size s block) :
    (block_trim_free_leading s block size).2 =
      offset_to_block (block_to_ptr block)
        (size - block_header_overhead - block_header_overhead) := by
  unfold block_trim_free_leading
  rw [if_pos (show block_can_split s block size = true by
    simp only [block_can_split, ge_iff_le, decide_eq_true_eq]
    omega)]
  rfl

theorem block_trim_free_leading_keep (s : TlsfState) (block size : Nat)
    (h : ¬ sizeof_block_header + size ≤ block_size s block) :
    (block_trim_free_leading s block size).2 = block := by
  unfold block_trim_free_leading
  rw [if_neg (show ¬ block_can_split s block size = true by
    simp only [block_can_split, ge_iff_le, decide_eq_true_eq]
    omega)]

/-- Non-null `tlsf_malloc` results are 4-aligned (given the index
invariants: list heads sit at 4-aligned addresses with correctly bucketed
4-aligned sizes). -/
theorem tlsf_malloc_aligned (s : TlsfState) (size : Nat)
    (hm : ∀ fl sl, s.blocks fl sl ≠ s.nullAddr →
      mapping_insert (block_size s (s.blocks fl sl)) = (fl, sl))
    (hblk : ∀ fl sl, s.blocks fl sl ≠ s.nullAddr →
      block_is_free s (s.blocks fl sl) = true ∧ s.blocks fl sl ≠ 0 ∧
      4 ∣ block_size s (s.blocks fl sl) ∧ block_size s (s.blocks fl sl) < U32)
    (hsl : ∀ fl sl, (s.sl_bitmap fl).testBit sl = true → s.blocks fl sl ≠ s.nullAddr)
    (hfl : ∀ fl, s.fl_bitmap.testBit fl = true → s.sl_bitmap fl ≠ 0)
    (hf32 : s.fl_bitmap < U32) (hs32 : ∀ fl, s.sl_bitmap fl < U32)
    (haddr : ∀ fl sl, s.blocks fl sl ≠ s.nullAddr → (s.blocks fl sl) % 4 = 0) :
    (tlsf_malloc s size).2 ≠ 0 → (tlsf_malloc s size).2 % 4 = 0 := by
  intro h
  rcases tlsf_malloc_result s size with h0 | ⟨heq, hne⟩
  · exact absurd h0 h
  · rw [heq]
    rcases adjust_request_size_props size with hz | ⟨h4, hmin, hmax⟩
    · rw [hz, block_locate_free_zero] at hne
      simp at hne
    · have hb := block_locate_free_addr_fit s (adjust_request_size size ALIGN_SIZE)
        hm hblk hsl hfl hf32 hs32 haddr h4
        (by rw [block_size_min_eq] at hmin; omega) hmax hne
      unfold block_to_ptr block_start_offset
      omega



theorem remove_free_block_sizeF (s : TlsfState) (block fl sl : Nat) :
    (remove_free_block s block fl sl).sizeF = s.sizeF := by
  unfold remove_free_block
  dsimp only
  split_ifs <;> rfl

theorem block_locate_free_sizeF (s : TlsfState) (size : Nat) :
    ((block_locate_free s size).1).sizeF = s.sizeF := by
  unfold block_locate_free
  dsimp only
  split_ifs <;> first | rfl | apply remove_free_block_sizeF

theorem block_size_congr (s' s : TlsfState) (b : Nat) (h : s'.sizeF = s.sizeF) :
    block_size s' b = block_size s b := by
  unfold block_size
  rw [h]

theorem block_trim_free_leading_ne_zero (s : TlsfState) (B g : Nat) (h : B ≠ 0) :
    (block_trim_free_leading s B g).2 ≠ 0 := by
  by_cases hc : sizeof_block_header + g ≤ block_size s B
  · rw [block_trim_free_leading_split s B g hc]
    unfold offset_to_block block_to_ptr block_start_offset
    omega
  · rw [block_trim_free_leading_keep s B g hc]
    exact h

theorem adjust_request_size_ne_zero_imp (x a : Nat)
    (h : adjust_request_size x a ≠ 0) : x ≠ 0 ∧ x < block_size_max := by
  by_contra hc
  apply h
  unfold adjust_request_size
  rw [if_neg hc]

theorem adjust_request_size_pos_eq (x a : Nat) (h0 : x ≠ 0) (hlt : x < block_size_max)
    (hge : block_size_min ≤ align_up x a) :
    adjust_request_size x a = align_up x a := by
  unfold adjust_request_size
  rw [if_pos ⟨h0, hlt⟩]
  exact Nat.max_eq_left hge

/-- The returned pointer of `tlsf_memalign` is null, or it is the user
pointer of the located block advanced by the final gap when the leading trim
splits (`block₂ = B + gap`), or the located block's own user pointer.  This
is the complete disjunction of `tlsf_memalign`'s pointer computation,
conditioned on nothing but the model itself. -/
theorem tlsf_memalign_cases (s : TlsfState) (align size k : Nat)
    (hm : ∀ fl sl, s.blocks fl sl ≠ s.nullAddr →
      mapping_insert (block_size s (s.blocks fl sl)) = (fl, sl))
    (hblk : ∀ fl sl, s.blocks fl sl ≠ s.nullAddr →
      block_is_free s (s.blocks fl sl) = true ∧ s.blocks fl sl ≠ 0 ∧
      4 ∣ block_size s (s.blocks fl sl) ∧ block_size s (s.blocks fl sl) < U32)
    (hsl : ∀ fl sl, (s.sl_bitmap fl).testBit sl = true → s.blocks fl sl ≠ s.nullAddr)
    (hfl : ∀ fl, s.fl_bitmap.testBit fl = true → s.sl_bitmap fl ≠ 0)
    (hf32 : s.fl_bitmap < U32) (hs32 : ∀ fl, s.sl_bitmap fl < U32)
    (haddr : ∀ fl sl, s.blocks fl sl ≠ s.nullAddr → (s.blocks fl sl) % 4 = 0)
    (hk : align = 2 ^ k) (h0 : size ≠ 0) (hmax : size < block_size_max) :
    (tlsf_memalign s align size).2 = 0 ∨
    ((tlsf_memalign s align size).2 % 4 = 0 ∧ align ∣ (tlsf_memalign s align size).2) := by
  have hadjnz : adjust_request_size size ALIGN_SIZE ≠ 0 := by
    unfold adjust_request_size
    rw [if_pos ⟨h0, hmax⟩]
    have h12 := Nat.le_max_right (align_up size ALIGN_SIZE) block_size_min
    rw [block_size_min_eq] at h12 ⊢
    omega
  rcases adjust_request_size_props size with hz | ⟨hadj4, hadjmin, hadjmax⟩
  · exact absurd hz hadjnz
  rw [block_size_min_eq] at hadjmin
  unfold tlsf_memalign
  dsimp only
  by_cases hsmall : align ≤ ALIGN_SIZE
  · -- align divides ALIGN_SIZE = 4: the gap is zero and the block pointer is
    -- returned directly
    rw [if_pos hsmall]
    by_cases hB : (block_locate_free s (adjust_request_size size ALIGN_SIZE)).2 ≠ 0
    · obtain ⟨hB4, hfit⟩ := block_locate_free_addr_fit s (adjust_request_size size ALIGN_SIZE)
        hm hblk hsl hfl hf32 hs32 haddr hadj4 hadjnz hadjmax hB
      have hdvd4 : align ∣ 4 := by
        rw [hk]
        rw [ALIGN_SIZE_eq, hk] at hsmall
        have hkle : k ≤ 2 := by
          by_contra hgt
          push_neg at hgt
          have : (2 : Nat) ^ 3 ≤ 2 ^ k := Nat.pow_le_pow_right (by omega) (by omega)
          omega
        have : (2 : Nat) ^ k ∣ 2 ^ 2 := Nat.pow_dvd_pow 2 hkle
        simpa using this
      have hdptr : align ∣ block_to_ptr ((block_locate_free s (adjust_request_size size ALIGN_SIZE)).2) := by
        apply dvd_trans hdvd4
        unfold block_to_ptr block_start_offset
        omega
      have halign0 : align_ptr (block_to_ptr ((block_locate_free s (adjust_request_size size ALIGN_SIZE)).2)) align =
          block_to_ptr ((block_locate_free s (adjust_request_size size ALIGN_SIZE)).2) := by
        rw [align_ptr_eq_align_up, hk]
        exact align_up_eq_self _ k (hk ▸ hdptr)
      rw [if_pos hB, halign0, Nat.sub_self]
      rw [if_neg (by simp)]
      dsimp only
      rw [block_prepare_used_ptr _ _ _ hB]
      right
      refine ⟨?_, hdptr⟩
      unfold block_to_ptr block_start_offset
      omega
    · rw [if_neg hB]
      push_neg at hB
      dsimp only
      unfold block_prepare_used
      rw [if_neg (by simpa using hB)]
      exact Or.inl rfl
  · -- align = 2^k with k ≥ 3
    rw [if_neg hsmall]
    have hk3 : 3 ≤ k := by
      by_contra hlt
      push_neg at hlt
      apply hsmall
      rw [hk, ALIGN_SIZE_eq]
      have : (2 : Nat) ^ k ≤ 2 ^ 2 := Nat.pow_le_pow_right (by omega) (by omega)
      omega
    have halign8 : 8 ≤ align := by
      rw [hk]
      calc (8 : Nat) = 2 ^ 3 := by norm_num
      _ ≤ 2 ^ k := Nat.pow_le_pow_right (by omega) (by omega)
    have h4align : 4 ∣ align := dvd_4_of_dvd_2_pow hk3 (hk ▸ dvd_refl _)
    by_cases hB : (block_locate_free s
        (adjust_request_size (adjust_request_size size ALIGN_SIZE + align + sizeof_block_header) align)).2 ≠ 0
    · -- a block was found; name the quantities
      by_cases hswg0 : adjust_request_size (adjust_request_size size ALIGN_SIZE + align + sizeof_block_header) align = 0
      · rw [hswg0, block_locate_free_zero] at hB
        simp at hB
      -- size_with_gap is align_up(adjust + align + 16, align), 4-aligned,
      -- within bounds, and at least adjust + align + 16
      have hxlt : adjust_request_size size ALIGN_SIZE + align + sizeof_block_header < block_size_max :=
        (adjust_request_size_ne_zero_imp _ _ hswg0).2
      have hswg_eq : adjust_request_size (adjust_request_size size ALIGN_SIZE + align + sizeof_block_header) align =
          align_up (adjust_request_size size ALIGN_SIZE + align + sizeof_block_header) align := by
        apply adjust_request_size_pos_eq _ _ (by omega) hxlt
        have hup : adjust_request_size size ALIGN_SIZE + align + sizeof_block_header ≤
            align_up (adjust_request_size size ALIGN_SIZE + align + sizeof_block_header) align := by
          rw [hk]
          exact align_up_le _ k
        rw [block_size_min_eq]
        omega
      have hswg_ge : adjust_request_size size ALIGN_SIZE + align + sizeof_block_header ≤
          adjust_request_size (adjust_request_size size ALIGN_SIZE + align + sizeof_block_header) align := by
        rw [hswg_eq, hk]
        exact align_up_le _ k
      have hswg4 : 4 ∣ adjust_request_size (adjust_request_size size ALIGN_SIZE + align + sizeof_block_header) align := by
        rw [hswg_eq, hk]
        exact dvd_4_of_dvd_2_pow hk3 (align_up_dvd _ k)
      have hk30 : k < 30 := by
        have h1 : align < block_size_max := by
          rw [show sizeof_block_header = 16 from rfl] at hxlt
          omega
        rw [hk, block_size_max_eq] at h1
        exact (Nat.pow_lt_pow_iff_right (by omega)).mp h1
      have hswgmax : adjust_request_size (adjust_request_size size ALIGN_SIZE + align + sizeof_block_header) align ≤
          block_size_max := by
        rw [hswg_eq, hk]
        apply align_up_le_of_dvd _ _ _ (by omega) _
        rw [block_size_max_eq]
        exact Nat.pow_dvd_pow 2 (by omega)
      obtain ⟨hB4, hfit⟩ := block_locate_free_addr_fit s
        (adjust_request_size (adjust_request_size size ALIGN_SIZE + align + sizeof_block_header) align)
        hm hblk hsl hfl hf32 hs32 haddr hswg4 hswg0 hswgmax hB
      -- abbreviations
      set B := (block_locate_free s
        (adjust_request_size (adjust_request_size size ALIGN_SIZE + align + sizeof_block_header) align)).2 with hBdef
      set st := (block_locate_free s
        (adjust_request_size (adjust_request_size size ALIGN_SIZE + align + sizeof_block_header) align)).1 with hstdef
      rw [if_pos hB]
      set ptr := block_to_ptr B with hptrdef
      set al0 := align_ptr ptr align with hal0def
      have hbsz : block_size st B = block_size s B :=
        block_size_congr _ _ _ (by rw [hstdef]; exact block_locate_free_sizeF s _)
      have hptrB : ptr = B + 8 := by rw [hptrdef]; rfl
      have hptr4 : ptr % 4 = 0 := by omega
      have hal0dvd : align ∣ al0 := by
        rw [hal0def, align_ptr_eq_align_up, hk]
        exact align_up_dvd ptr k
      have hal0ge : ptr ≤ al0 := by
        rw [hal0def, align_ptr_eq_align_up, hk]
        exact align_up_le ptr k
      have hal0lt : al0 < ptr + align := by
        rw [hal0def, align_ptr_eq_align_up, hk]
        exact align_up_lt ptr k
      have h4al0 : 4 ∣ al0 := dvd_trans h4align hal0dvd
      have hg4 : 4 ∣ (al0 - ptr) := Nat.dvd_sub' h4al0 (Nat.dvd_of_mod_eq_zero hptr4)
      have hfit' : adjust_request_size size ALIGN_SIZE + align + sizeof_block_header ≤
          block_size s B := le_trans hswg_ge hfit
      rw [show sizeof_block_header = 16 from rfl] at hfit'
      by_cases hgap : al0 - ptr ≠ 0 ∧ al0 - ptr < sizeof_block_header
      · -- small positive gap: advance to the next aligned boundary
        rw [if_pos hgap]
        obtain ⟨hg0ne, hg0lt⟩ := hgap
        rw [show sizeof_block_header = 16 from rfl] at hg0lt
        have hg0le12 : al0 - ptr ≤ 12 := by
          obtain ⟨c, hc⟩ := hg4
          omega
        by_cases h16 : 16 ≤ align
        · -- offset = align, the boundary advances by exactly one alignment step
          have hoff : max (sizeof_block_header - (al0 - ptr)) align = align := by
            rw [show sizeof_block_header = 16 from rfl]
            exact Nat.max_eq_right (by omega)
          rw [hoff]
          have ha2 : align_ptr (al0 + align) align = al0 + align := by
            rw [align_ptr_eq_align_up, hk]
            apply align_up_eq_self
            rw [← hk]
            exact Dvd.dvd.add hal0dvd dvd_rfl
          rw [ha2]
          dsimp only
          have hg1 : al0 + align - ptr = (al0 - ptr) + align := by omega
          rw [hg1]
          rw [if_pos (show (al0 - ptr) + align ≠ 0 by omega)]
          have hcan : sizeof_block_header + ((al0 - ptr) + align) ≤ block_size st B := by
            rw [hbsz, show sizeof_block_header = 16 from rfl]
            omega
          rw [block_trim_free_leading_split st B _ hcan]
          rw [block_prepare_used_ptr _ _ _ (by
            unfold offset_to_block block_to_ptr block_start_offset
            omega)]
          right
          have hres : block_to_ptr (offset_to_block (block_to_ptr B)
              ((al0 - ptr) + align - block_header_overhead - block_header_overhead)) =
              al0 + align := by
            unfold block_to_ptr offset_to_block block_start_offset block_header_overhead
            omega
          rw [hres]
          refine ⟨?_, Dvd.dvd.add hal0dvd dvd_rfl⟩
          obtain ⟨c1, hc1⟩ := h4al0
          obtain ⟨c2, hc2⟩ := h4align
          omega
        · -- align = 8: the gap is 4 and the boundary advances by 16
          have hk4 : k < 4 := by
            by_contra hge
            push_neg at hge
            apply h16
            rw [hk]
            calc (16 : Nat) = 2 ^ 4 := by norm_num
            _ ≤ 2 ^ k := Nat.pow_le_pow_right (by omega) (by omega)
          have hA8 : align = 8 := by
            have hkk : k = 3 := by omega
            rw [hk, hkk]
            norm_num
          have hg0v : al0 - ptr = 4 := by
            obtain ⟨c, hc⟩ := hg4
            have : al0 - ptr < 8 := by omega
            omega
          have hoff : max (sizeof_block_header - (al0 - ptr)) align = 12 := by
            rw [show sizeof_block_header = 16 from rfl, hg0v, hA8]
            decide
          rw [hoff]
          have ha2 : align_ptr (al0 + 12) align = al0 + 16 := by
            rw [align_ptr_eq_align_up, hA8, show (8 : Nat) = 2 ^ 3 by norm_num]
            rw [align_up_add_left al0 12 3 (by
              rw [← show (8 : Nat) = 2 ^ 3 by norm_num, ← hA8]
              exact hal0dvd)]
            rw [show align_up 12 (2 ^ 3) = 16 by decide]
          rw [ha2]
          dsimp only
          have hg1 : al0 + 16 - ptr = 20 := by omega
          rw [hg1]
          rw [if_pos (show (20 : Nat) ≠ 0 by omega)]
          have hcan : sizeof_block_header + 20 ≤ block_size st B := by
            rw [hbsz, show sizeof_block_header = 16 from rfl]
            omega
          rw [block_trim_free_leading_split st B _ hcan]
          rw [block_prepare_used_ptr _ _ _ (by
            unfold offset_to_block block_to_ptr block_start_offset
            omega)]
          right
          have hres : block_to_ptr (offset_to_block (block_to_ptr B)
              (20 - block_header_overhead - block_header_overhead)) = al0 + 16 := by
            unfold block_to_ptr offset_to_block block_start_offset block_header_overhead
            omega
          rw [hres]
          refine ⟨?_, ?_⟩
          · obtain ⟨c1, hc1⟩ := h4al0
            omega
          · rw [hA8]
            rw [hA8] at hal0dvd
            exact Nat.dvd_add hal0dvd (by norm_num)
      · -- the gap is zero, or already large enough to trim directly
        rw [if_neg hgap]
        dsimp only
        by_cases hg0 : al0 - ptr ≠ 0
        · -- gap ≥ 16: trim the leading gap; the tail starts at the aligned address
          have hg16 : 16 ≤ al0 - ptr := by
            by_contra hlt
            push_neg at hlt
            exact hgap ⟨hg0, by rw [show sizeof_block_header = 16 from rfl]; omega⟩
          rw [if_pos hg0]
          have hgle : al0 - ptr ≤ align - 4 := by
            obtain ⟨c1, hc1⟩ := hg4
            obtain ⟨c2, hc2⟩ := h4align
            omega
          have hcan : sizeof_block_header + (al0 - ptr) ≤ block_size st B := by
            rw [hbsz, show sizeof_block_header = 16 from rfl]
            omega
          rw [block_trim_free_leading_split st B _ hcan]
          rw [block_prepare_used_ptr _ _ _ (by
            unfold offset_to_block block_to_ptr block_start_offset
            omega)]
          right
          have hres : block_to_ptr (offset_to_block (block_to_ptr B)
              (al0 - ptr - block_header_overhead - block_header_overhead)) = al0 := by
            unfold block_to_ptr offset_to_block block_start_offset block_header_overhead
            omega
          rw [hres]
          exact ⟨by omega, hal0dvd⟩
        · -- gap = 0: the block pointer itself is aligned
          rw [if_neg hg0]
          dsimp only
          rw [block_prepare_used_ptr _ _ _ hB]
          right
          push_neg at hg0
          have hpa : ptr = al0 := by omega
          refine ⟨by omega, ?_⟩
          rw [← hptrdef, hpa]
          exact hal0dvd
    · rw [if_neg hB]
      push_neg at hB
      dsimp only
      unfold block_prepare_used
      rw [if_neg (by simpa using hB)]
      exact Or.inl rfl



theorem tlsf_realloc_aligned (s : TlsfState) (ptr size : Nat)
    (hm : ∀ fl sl, s.blocks fl sl ≠ s.nullAddr →
      mapping_insert (block_size s (s.blocks fl sl)) = (fl, sl))
    (hblk : ∀ fl sl, s.blocks fl sl ≠ s.nullAddr →
      block_is_free s (s.blocks fl sl) = true ∧ s.blocks fl sl ≠ 0 ∧
      4 ∣ block_size s (s.blocks fl sl) ∧ block_size s (s.blocks fl sl) < U32)
    (hsl : ∀ fl sl, (s.sl_bitmap fl).testBit sl = true → s.blocks fl sl ≠ s.nullAddr)
    (hfl : ∀ fl, s.fl_bitmap.testBit fl = true → s.sl_bitmap fl ≠ 0)
    (hf32 : s.fl_bitmap < U32) (hs32 : ∀ fl, s.sl_bitmap fl < U32)
    (haddr : ∀ fl sl, s.blocks fl sl ≠ s.nullAddr → (s.blocks fl sl) % 4 = 0)
    (hp : ptr % 4 = 0) :
    (tlsf_realloc s ptr size).2 ≠ 0 → (tlsf_realloc s ptr size).2 % 4 = 0 := by
  unfold tlsf_realloc
  dsimp only
  by_cases h1 : ptr ≠ 0 ∧ size = 0
  · rw [if_pos h1]
    intro h
    simp at h
  · rw [if_neg h1]
    by_cases h2 : ptr = 0
    · rw [if_pos h2]
      exact tlsf_malloc_aligned s size hm hblk hsl hfl hf32 hs32 haddr
    · rw [if_neg h2]
      by_cases h3 : adjust_request_size size ALIGN_SIZE > block_size s (block_from_ptr ptr) ∧
          (¬ block_is_free s (block_next s (block_from_ptr ptr)) ∨
           adjust_request_size size ALIGN_SIZE >
             block_size s (block_from_ptr ptr) +
               block_size s (block_next s (block_from_ptr ptr)) + block_header_overhead)
      · rw [if_pos h3]
        by_cases h4 : (tlsf_malloc s size).2 ≠ 0
        · rw [if_pos h4]
          intro _
          exact tlsf_malloc_aligned s size hm hblk hsl hfl hf32 hs32 haddr h4
        · rw [if_neg h4]
          intro h
          simp at h
      · rw [if_neg h3]
        intro _
        exact hp

/-! ## Claim C5: alignment of returned pointers -/

theorem w5_hm : ∀ fl sl, w5.blocks fl sl ≠ w5.nullAddr →
    mapping_insert (block_size w5 (w5.blocks fl sl)) = (fl, sl) := by
  intro fl sl h
  by_cases hc : fl = 2 ∧ sl = 0
  · obtain ⟨rfl, rfl⟩ := hc
    decide
  · exact absurd (by simp [w5, hc]) h

/-- C5 counterexample: `tlsf_memalign(16, 0)` can return a non-null pointer
that is not 16-aligned.  In the state `w5` (one correctly indexed free block
of size 32 whose user pointer 116 is 4- but not 16-aligned), the zero request
adjusts to 0 yet `size_with_gap = 32` still drives a successful search; the
alignment gap of 28 cannot be trimmed (`block_can_split` needs 16 + 28 ≤ 32),
so the original, misaligned user pointer 116 is returned non-null.  (The same
happens for any `size ≥ block_size_max`.) -/
theorem C5_counterexample :
    (16 : Nat) = 2 ^ 4 ∧
    (∀ fl sl, w5.blocks fl sl ≠ w5.nullAddr →
      mapping_insert (block_size w5 (w5.blocks fl sl)) = (fl, sl)) ∧
    (tlsf_memalign w5 16 0).2 = 116 ∧
    ¬ (16 ∣ (tlsf_memalign w5 16 0).2) :=
  ⟨by norm_num, w5_hm, by decide, by decide⟩

/-- C5 (amended): for requests with a non-zero adjusted size — i.e.
`0 < size < block_size_max`; `tlsf_memalign(align, 0)` and oversize requests
are excluded, as the counterexample shows they can return a misaligned
non-null pointer — every non-null pointer returned by `tlsf_malloc`,
`tlsf_memalign` or `tlsf_realloc` is a multiple of the base alignment
`ALIGN_SIZE = 4`, and every non-null `tlsf_memalign(align, size)` result is
additionally a multiple of the power-of-two `align`.  The state hypotheses
are the index invariants the allocator maintains (4-aligned list heads with
correctly bucketed free blocks, bitmap/head agreement); `tlsf_realloc` is
additionally given that its argument pointer is 4-aligned, true of every
pointer the allocator issued. -/
theorem C5_alignment (s : TlsfState) (align size k ptr : Nat)
    (hm : ∀ fl sl, s.blocks fl sl ≠ s.nullAddr →
      mapping_insert (block_size s (s.blocks fl sl)) = (fl, sl))
    (hblk : ∀ fl sl, s.blocks fl sl ≠ s.nullAddr →
      block_is_free s (s.blocks fl sl) = true ∧ s.blocks fl sl ≠ 0 ∧
      4 ∣ block_size s (s.blocks fl sl) ∧ block_size s (s.blocks fl sl) < U32)
    (hsl : ∀ fl sl, (s.sl_bitmap fl).testBit sl = true → s.blocks fl sl ≠ s.nullAddr)
    (hfl : ∀ fl, s.fl_bitmap.testBit fl = true → s.sl_bitmap fl ≠ 0)
    (hf32 : s.fl_bitmap < U32) (hs32 : ∀ fl, s.sl_bitmap fl < U32)
    (haddr : ∀ fl sl, s.blocks fl sl ≠ s.nullAddr → (s.blocks fl sl) % 4 = 0)
    (hk : align = 2 ^ k) (h0 : size ≠ 0) (hmax : size < block_size_max)
    (hp : ptr % 4 = 0) :
    ((tlsf_malloc s size).2 ≠ 0 → (tlsf_malloc s size).2 % 4 = 0) ∧
    ((tlsf_memalign s align size).2 ≠ 0 →
      (tlsf_memalign s align size).2 % 4 = 0 ∧ align ∣ (tlsf_memalign s align size).2) ∧
    ((tlsf_realloc s ptr size).2 ≠ 0 → (tlsf_realloc s ptr size).2 % 4 = 0) := by
  refine ⟨tlsf_malloc_aligned s size hm hblk hsl hfl hf32 hs32 haddr, ?_,
    tlsf_realloc_aligned s ptr size hm hblk hsl hfl hf32 hs32 haddr hp⟩
  intro h
  rcases tlsf_memalign_cases s align size k hm hblk hsl hfl hf32 hs32 haddr hk h0 hmax with
    hz | hok
  · exact absurd hz h
  · exact hok

theorem w1_haddr : ∀ fl sl, w1.blocks fl sl ≠ w1.nullAddr → (w1.blocks fl sl) % 4 = 0 := by
  intro fl sl h
  by_cases hc : fl = 0 ∧ sl = 3
  · obtain ⟨rfl, rfl⟩ := hc
    decide
  · exact absurd (by simp [w1, hc]) h

/-- Witness for C5 on `w1` with `align = 8`, `size = 4`, `ptr = 108`. -/
theorem C5_witness :
    (8 : Nat) = 2 ^ 3 ∧ (4 : Nat) ≠ 0 ∧
    (((tlsf_malloc w1 4).2 ≠ 0 → (tlsf_malloc w1 4).2 % 4 = 0) ∧
     ((tlsf_memalign w1 8 4).2 ≠ 0 →
       (tlsf_memalign w1 8 4).2 % 4 = 0 ∧ (8 : Nat) ∣ (tlsf_memalign w1 8 4).2) ∧
     ((tlsf_realloc w1 108 4).2 ≠ 0 → (tlsf_realloc w1 108 4).2 % 4 = 0)) :=
  ⟨by norm_num, by decide,
   C5_alignment w1 8 4 3 108 w1_hm w1_hblk w1_hsl w1_hfl (by decide) w1_hs32 w1_haddr
     (by norm_num) (by decide) (by decide) (by decide)⟩



/-! ## Claim C2: no two adjacent free blocks -/

theorem naf_nil : NAF [] := List.chain'_nil

theorem naf_singleton (a : PBlock) : NAF [a] := List.Chain.nil

theorem naf_cons_cons (a c : PBlock) (l : List PBlock) :
    NAF (a :: c :: l) ↔ ¬(a.free = true ∧ c.free = true) ∧ NAF (c :: l) :=
  List.chain'_cons

theorem naf_tail (a : PBlock) (l : List PBlock) (h : NAF (a :: l)) : NAF l :=
  h.tail

theorem naf_cons_congr (c d : PBlock) (l : List PBlock) (h : c.free = d.free) :
    NAF (c :: l) ↔ NAF (d :: l) := by
  cases l with
  | nil => exact ⟨fun _ => naf_singleton d, fun _ => naf_singleton c⟩
  | cons m t => rw [naf_cons_cons, naf_cons_cons, h]

theorem naf_cons_of_used (c : PBlock) (l : List PBlock) (hc : c.free = false)
    (h : NAF l) : NAF (c :: l) := by
  cases l with
  | nil => exact naf_singleton c
  | cons m t =>
    rw [naf_cons_cons]
    refine ⟨fun hcm => ?_, h⟩
    rw [hc] at hcm
    exact absurd hcm.1 (by decide)

theorem naf_cons_of_free_cons (c n : PBlock) (rest : List PBlock)
    (hn : n.free = true) (h : NAF (n :: rest)) : NAF (c :: rest) := by
  cases rest with
  | nil => exact naf_singleton c
  | cons m t =>
    rw [naf_cons_cons] at h ⊢
    exact ⟨fun hcm => h.1 ⟨hn, hcm.2⟩, h.2⟩

/-- The invariant of a zipper chain splits into the two cons-lists hanging
off the focus. -/
theorem naf_zip_iff (bef : List PBlock) (b : PBlock) (aft : List PBlock) :
    NAF (chainOf ⟨bef, b, aft⟩) ↔ NAF (b :: bef) ∧ NAF (b :: aft) := by
  unfold NAF chainOf
  rw [List.chain'_append]
  rw [List.getLast?_reverse]
  constructor
  · rintro ⟨hrev, hba, hlink⟩
    refine ⟨?_, hba⟩
    have hbef : List.Chain' (fun a c : PBlock => ¬(a.free = true ∧ c.free = true)) bef := by
      rw [List.chain'_reverse] at hrev
      exact hrev.imp fun a c hac hc => hac ⟨hc.2, hc.1⟩
    cases bef with
    | nil => exact List.Chain.nil
    | cons p pr =>
      rw [List.chain'_cons]
      refine ⟨fun hc => ?_, hbef⟩
      exact hlink p (by simp) b (by simp) ⟨hc.2, hc.1⟩
  · rintro ⟨hbb, hba⟩
    refine ⟨?_, hba, ?_⟩
    · rw [List.chain'_reverse]
      exact (naf_tail _ _ hbb).imp fun a c hac hc => hac ⟨hc.2, hc.1⟩
    · intro x hx y hy
      simp only [List.head?_cons, Option.mem_def, Option.some.injEq] at hy
      cases bef with
      | nil => simp at hx
      | cons p pr =>
        simp only [List.head?_cons, Option.mem_def, Option.some.injEq] at hx
        subst hx
        subst hy
        have hb := (List.chain'_cons.mp hbb).1
        exact fun hc => hb ⟨hc.2, hc.1⟩

/-- `block_prepare_used` preserves the invariant when the focus is free,
even if a free predecessor touches it (as `block_trim_free_leading` can
leave behind): only `NAF` of `bef` itself is required. -/
theorem pz_prepare_used_naf (z : PZip) (size : Nat)
    (h1 : NAF z.bef) (h2 : NAF (z.cur :: z.aft)) (hf : z.cur.free = true) :
    NAF (chainOf (pz_prepare_used z size)) := by
  obtain ⟨bef, b, aft⟩ := z
  dsimp only at h1 h2 hf
  unfold pz_prepare_used pz_trim_free pz_split pz_mark_used
  by_cases hs : pb_can_split b size = true
  · rw [if_pos hs]
    dsimp only
    rw [naf_zip_iff]
    refine ⟨naf_cons_of_used _ _ rfl h1, ?_⟩
    refine naf_cons_of_used _ _ rfl ?_
    exact (naf_cons_congr _ b aft hf.symm).mpr h2
  · rw [if_neg hs]
    dsimp only
    rw [naf_zip_iff]
    exact ⟨naf_cons_of_used _ _ rfl h1,
      naf_cons_of_used _ _ rfl (naf_tail _ _ h2)⟩

theorem pz_malloc_naf (z : PZip) (adjust : Nat) (h : NAF (chainOf z))
    (hf : z.cur.free = true) : NAF (chainOf (pz_malloc z adjust)) := by
  obtain ⟨bef, b, aft⟩ := z
  rw [naf_zip_iff] at h
  unfold pz_malloc
  exact pz_prepare_used_naf _ adjust (naf_tail _ _ h.1) h.2 hf

theorem pz_memalign_naf (z : PZip) (gap adjust : Nat) (h : NAF (chainOf z))
    (hf : z.cur.free = true) : NAF (chainOf (pz_memalign z gap adjust)) := by
  obtain ⟨bef, b, aft⟩ := z
  rw [naf_zip_iff] at h
  dsimp only at hf
  unfold pz_memalign
  by_cases hg : gap ≠ 0
  · rw [if_pos hg]
    unfold pz_trim_free_leading
    dsimp only
    by_cases hs : pb_can_split b gap = true
    · rw [if_pos hs]
      unfold pz_next pz_split
      dsimp only
      refine pz_prepare_used_naf _ adjust ?_ ?_ rfl
      · exact (naf_cons_congr ⟨gap - block_header_overhead, b.free⟩ b bef rfl).mpr h.1
      · exact (naf_cons_congr
          ⟨b.size - (gap - block_header_overhead + block_header_overhead), true⟩
          b aft hf.symm).mpr h.2
    · rw [if_neg hs]
      exact pz_prepare_used_naf _ adjust (naf_tail _ _ h.1) h.2 hf
  · rw [if_neg hg]
    exact pz_prepare_used_naf _ adjust (naf_tail _ _ h.1) h.2 hf

theorem pz_trim_used_naf (z : PZip) (size : Nat) (h : NAF (chainOf z))
    (hu : z.cur.free = false) : NAF (chainOf (pz_trim_used z size)) := by
  obtain ⟨bef, b, aft⟩ := z
  rw [naf_zip_iff] at h
  dsimp only at hu
  unfold pz_trim_used
  dsimp only
  by_cases hs : pb_can_split b size = true
  · rw [if_pos hs]
    unfold pz_merge_next pz_next pz_split
    dsimp only
    cases aft with
    | nil =>
      dsimp only
      rw [naf_zip_iff]
      refine ⟨?_, naf_singleton _⟩
      rw [naf_cons_cons]
      refine ⟨fun hc => ?_, naf_cons_of_used _ _ (by simp [hu]) (naf_tail _ _ h.1)⟩
      have := hc.2
      simp [hu] at this
    | cons n nr =>
      dsimp only
      by_cases hn : n.free = true
      · rw [if_pos hn]
        rw [naf_zip_iff]
        constructor
        · rw [naf_cons_cons]
          refine ⟨fun hc => ?_, naf_cons_of_used _ _ (by simp [hu]) (naf_tail _ _ h.1)⟩
          have := hc.2
          simp [hu] at this
        · exact naf_cons_of_free_cons _ n nr hn (naf_tail _ _ h.2)
      · rw [if_neg hn]
        rw [naf_zip_iff]
        constructor
        · rw [naf_cons_cons]
          refine ⟨fun hc => ?_, naf_cons_of_used _ _ (by simp [hu]) (naf_tail _ _ h.1)⟩
          have := hc.2
          simp [hu] at this
        · rw [naf_cons_cons]
          exact ⟨fun hc => hn hc.2, naf_tail _ _ h.2⟩
  · rw [if_neg hs]
    rw [naf_zip_iff]
    exact h

theorem pz_realloc_inplace_naf (z : PZip) (adjust : Nat) (h : NAF (chainOf z))
    (hu : z.cur.free = false) : NAF (chainOf (pz_realloc_inplace z adjust)) := by
  obtain ⟨bef, b, aft⟩ := z
  dsimp only at hu
  unfold pz_realloc_inplace
  dsimp only
  by_cases hg : adjust > b.size
  · rw [if_pos hg]
    refine pz_trim_used_naf _ adjust ?_ rfl
    rw [naf_zip_iff] at h
    unfold pz_merge_next pz_mark_used pb_absorb
    cases aft with
    | nil =>
      dsimp only
      rw [naf_zip_iff]
      exact ⟨(naf_cons_congr _ b bef hu.symm).mpr h.1, naf_singleton _⟩
    | cons n nr =>
      dsimp only
      by_cases hn : n.free = true
      · rw [if_pos hn]
        dsimp only
        rw [naf_zip_iff]
        refine ⟨(naf_cons_congr _ b bef hu.symm).mpr h.1, ?_⟩
        exact naf_cons_of_used _ _ rfl (naf_tail _ _ (naf_tail _ _ h.2))
      · rw [if_neg hn]
        dsimp only
        rw [naf_zip_iff]
        refine ⟨(naf_cons_congr _ b bef hu.symm).mpr h.1, ?_⟩
        exact naf_cons_of_used _ _ rfl (naf_tail _ _ h.2)
  · rw [if_neg hg]
    exact pz_trim_used_naf _ adjust h hu

theorem pz_free_naf (z : PZip) (h : NAF (chainOf z)) (hu : z.cur.free = false) :
    NAF (chainOf (pz_free z)) := by
  obtain ⟨bef, b, aft⟩ := z
  rw [naf_zip_iff] at h
  dsimp only at hu
  unfold pz_free pz_mark_free pz_merge_prev pz_merge_next pb_absorb
  dsimp only
  cases bef with
  | nil =>
    cases aft with
    | nil =>
      dsimp only
      rw [naf_zip_iff]
      exact ⟨naf_singleton _, naf_singleton _⟩
    | cons n nr =>
      dsimp only
      by_cases hn : n.free = true
      · rw [if_pos hn]
        rw [naf_zip_iff]
        exact ⟨naf_singleton _,
          naf_cons_of_free_cons _ n nr hn (naf_tail _ _ h.2)⟩
      · rw [if_neg hn]
        rw [naf_zip_iff]
        refine ⟨naf_singleton _, ?_⟩
        rw [naf_cons_cons]
        exact ⟨fun hc => hn hc.2, naf_tail _ _ h.2⟩
  | cons p pr =>
    dsimp only
    by_cases hp : p.free = true
    · rw [if_pos hp]
      dsimp only
      cases aft with
      | nil =>
        dsimp only
        rw [naf_zip_iff]
        exact ⟨naf_cons_of_free_cons _ p pr hp (naf_tail _ _ h.1), naf_singleton _⟩
      | cons n nr =>
        dsimp only
        by_cases hn : n.free = true
        · rw [if_pos hn]
          rw [naf_zip_iff]
          exact ⟨naf_cons_of_free_cons _ p pr hp (naf_tail _ _ h.1),
            naf_cons_of_free_cons _ n nr hn (naf_tail _ _ h.2)⟩
        · rw [if_neg hn]
          rw [naf_zip_iff]
          refine ⟨naf_cons_of_free_cons _ p pr hp (naf_tail _ _ h.1), ?_⟩
          rw [naf_cons_cons]
          exact ⟨fun hc => hn hc.2, naf_tail _ _ h.2⟩
    · rw [if_neg hp]
      dsimp only
      cases aft with
      | nil =>
        dsimp only
        rw [naf_zip_iff]
        refine ⟨?_, naf_singleton _⟩
        rw [naf_cons_cons]
        exact ⟨fun hc => hp hc.2, naf_tail _ _ h.1⟩
      | cons n nr =>
        dsimp only
        by_cases hn : n.free = true
        · rw [if_pos hn]
          rw [naf_zip_iff]
          constructor
          · rw [naf_cons_cons]
            exact ⟨fun hc => hp hc.2, naf_tail _ _ h.1⟩
          · exact naf_cons_of_free_cons _ n nr hn (naf_tail _ _ h.2)
        · rw [if_neg hn]
          rw [naf_zip_iff]
          constructor
          · rw [naf_cons_cons]
            exact ⟨fun hc => hp hc.2, naf_tail _ _ h.1⟩
          · rw [naf_cons_cons]
            exact ⟨fun hc => hn hc.2, naf_tail _ _ h.2⟩

theorem pool_chain_naf_aux (pool_bytes : Nat) : NAF (pool_chain pool_bytes) := by
  unfold pool_chain
  rw [naf_cons_cons]
  exact ⟨fun hc => absurd hc.2 (by decide), naf_singleton _⟩


theorem naf_iff_nafB : ∀ l : List PBlock, NAF l ↔ nafB l = true
  | [] => iff_of_true naf_nil rfl
  | [a] => iff_of_true (naf_singleton a) rfl
  | a :: c :: l => by
    rw [naf_cons_cons, naf_iff_nafB (c :: l)]
    cases ha : a.free <;> cases hc : c.free <;> simp [nafB, ha, hc]

/-- C2: after every public operation returns, the physical block chain
contains no two consecutive blocks that are both marked FREE.  Each conjunct
is the chain-level action of one public entry point on a zipper focused at
the block it manipulates: `tlsf_malloc` and `tlsf_memalign` act on the free
block `block_locate_free` found, `tlsf_free` and in-place `tlsf_realloc`
act on a used block, and `tlsf_add_pool` creates the two-block chain
`[free pool_bytes, used sentinel]`.  (The cannot-grow `tlsf_realloc` branch
is `tlsf_free` after `tlsf_malloc`, covered by those two conjuncts.)  In
every case the invariant is preserved: `tlsf_free` eagerly merges with a
free previous and next neighbour, and `block_trim_used` coalesces the
split-off remainder with a free successor before inserting it. -/
theorem C2_no_adjacent_free :
    (∀ (z : PZip) (adjust : Nat), NAF (chainOf z) → z.cur.free = true →
      NAF (chainOf (pz_malloc z adjust))) ∧
    (∀ (z : PZip) (gap adjust : Nat), NAF (chainOf z) → z.cur.free = true →
      NAF (chainOf (pz_memalign z gap adjust))) ∧
    (∀ (z : PZip) (adjust : Nat), NAF (chainOf z) → z.cur.free = false →
      NAF (chainOf (pz_realloc_inplace z adjust))) ∧
    (∀ (z : PZip), NAF (chainOf z) → z.cur.free = false →
      NAF (chainOf (pz_free z))) ∧
    (∀ pool_bytes : Nat, NAF (pool_chain pool_bytes)) :=
  ⟨pz_malloc_naf, pz_memalign_naf, pz_realloc_inplace_naf, pz_free_naf,
    pool_chain_naf_aux⟩

/-- Witness for C2: all five conjuncts at concrete chains (used/free/used
patterns with the sentinel), hypotheses evaluated by `decide`. -/
theorem C2_witness :
    NAF (chainOf (pz_malloc ⟨[⟨20, false⟩], ⟨32, true⟩, [⟨0, false⟩]⟩ 16)) ∧
    NAF (chainOf (pz_memalign ⟨[⟨20, false⟩], ⟨64, true⟩, [⟨0, false⟩]⟩ 20 16)) ∧
    NAF (chainOf (pz_realloc_inplace ⟨[⟨20, false⟩], ⟨32, false⟩, [⟨24, true⟩, ⟨0, false⟩]⟩ 40)) ∧
    NAF (chainOf (pz_free ⟨[⟨20, true⟩], ⟨32, false⟩, [⟨24, true⟩, ⟨0, false⟩]⟩)) ∧
    NAF (pool_chain 48) :=
  ⟨C2_no_adjacent_free.1 _ 16 ((naf_iff_nafB _).mpr (by decide)) (by decide),
   C2_no_adjacent_free.2.1 _ 20 16 ((naf_iff_nafB _).mpr (by decide)) (by decide),
   C2_no_adjacent_free.2.2.1 _ 40 ((naf_iff_nafB _).mpr (by decide)) (by decide),
   C2_no_adjacent_free.2.2.2.1 _ ((naf_iff_nafB _).mpr (by decide)) (by decide),
   C2_no_adjacent_free.2.2.2.2 48⟩



/-! ## Claim C6: bit-level set/clear toolkit and the free-after-malloc round trip -/

theorem sub_two_pow_testBit (v i : Nat) (h : v.testBit i = true) (j : Nat) :
    (v - 2 ^ i).testBit j = if j = i then false else v.testBit j := by
  have hm_lt : v % 2 ^ (i + 1) < 2 ^ (i + 1) := Nat.mod_lt _ (Nat.two_pow_pos _)
  have htm : (v % 2 ^ (i + 1)).testBit i = true := by
    rw [Nat.testBit_mod_two_pow]
    simp [h]
  have hge : 2 ^ i ≤ v % 2 ^ (i + 1) := Nat.testBit_implies_ge htm
  have hsucc : 2 ^ (i + 1) = 2 * 2 ^ i := by rw [pow_succ]; ring
  have hrlt : v % 2 ^ i < 2 ^ i := Nat.mod_lt _ (Nat.two_pow_pos _)
  have hmod : v % 2 ^ i = v % 2 ^ (i + 1) - 2 ^ i := by
    have h2 : (v % 2 ^ (i + 1)) % 2 ^ i = v % 2 ^ (i + 1) - 2 ^ i := by
      rw [Nat.mod_eq_sub_mod hge]
      exact Nat.mod_eq_of_lt (by omega)
    calc v % 2 ^ i = (v % 2 ^ (i + 1)) % 2 ^ i :=
          (Nat.mod_mod_of_dvd v ⟨2, by rw [hsucc]; ring⟩).symm
      _ = v % 2 ^ (i + 1) - 2 ^ i := h2
  have hdm := Nat.div_add_mod v (2 ^ (i + 1))
  have hdecomp : v = 2 ^ i * (2 * (v / 2 ^ (i + 1)) + 1) + v % 2 ^ i := by
    have hx : 2 ^ i * (2 * (v / 2 ^ (i + 1)) + 1) = 2 ^ (i + 1) * (v / 2 ^ (i + 1)) + 2 ^ i := by
      rw [hsucc]; ring
    omega
  have hsub : v - 2 ^ i = 2 ^ i * (2 * (v / 2 ^ (i + 1))) + v % 2 ^ i := by
    have hx : 2 ^ i * (2 * (v / 2 ^ (i + 1)) + 1) = 2 ^ i * (2 * (v / 2 ^ (i + 1))) + 2 ^ i := by
      ring
    omega
  have hL : (v - 2 ^ i).testBit j =
      if j < i then (v % 2 ^ i).testBit j else (2 * (v / 2 ^ (i + 1))).testBit (j - i) := by
    rw [hsub]
    exact Nat.testBit_mul_pow_two_add _ hrlt j
  have hR : v.testBit j =
      if j < i then (v % 2 ^ i).testBit j else (2 * (v / 2 ^ (i + 1)) + 1).testBit (j - i) := by
    conv_lhs => rw [hdecomp]
    exact Nat.testBit_mul_pow_two_add _ hrlt j
  rw [hL, hR]
  rcases Nat.lt_trichotomy j i with hj | hj | hj
  · simp only [if_pos hj, if_neg (show j ≠ i by omega)]
  · subst hj
    simp only [if_neg (lt_irrefl j), if_pos rfl, Nat.sub_self, Nat.testBit_zero]
    simp [Nat.mul_mod_right]
  · have hji : ¬ j < i := by omega
    have hne : j ≠ i := by omega
    simp only [if_neg hji, if_neg hne]
    obtain ⟨k, hk⟩ : ∃ k, j - i = k + 1 := ⟨j - i - 1, by omega⟩
    rw [hk, Nat.testBit_add_one, Nat.testBit_add_one,
      Nat.mul_div_cancel_left _ (show (0:Nat) < 2 by norm_num),
      Nat.mul_add_div (show (0:Nat) < 2 by norm_num)]
    norm_num

/-- Clearing a set bit and setting it again restores the word: the
`remove_free_block` bitmap clear composed with the `insert_free_block`
bitmap set. -/
theorem clear_then_set_pow (v i : Nat) (h : v.testBit i = true) :
    (v - (v &&& (1 <<< i))) ||| (1 <<< i) = v := by
  have hand : v &&& (1 <<< i) = 2 ^ i := by
    rw [Nat.one_shiftLeft, Nat.and_two_pow, h]
    simp
  rw [hand]
  apply Nat.eq_of_testBit_eq
  intro j
  rw [Nat.testBit_or, sub_two_pow_testBit v i h j, Nat.one_shiftLeft, Nat.testBit_two_pow]
  by_cases hj : j = i
  · subst hj
    simp [h]
  · simp [hj, Ne.symm hj]

/-- Setting an already-set bit is a no-op. -/
theorem set_of_testBit (v i : Nat) (h : v.testBit i = true) : v ||| (1 <<< i) = v := by
  apply Nat.eq_of_testBit_eq
  intro j
  rw [Nat.testBit_or, Nat.one_shiftLeft, Nat.testBit_two_pow]
  by_cases hj : i = j
  · subst hj
    simp [h]
  · simp [hj]

/-- Setting a clear bit and clearing it again restores the word. -/
theorem set_then_clear_pow (v i : Nat) (h : v.testBit i = false) :
    (v ||| (1 <<< i)) - ((v ||| (1 <<< i)) &&& (1 <<< i)) = v := by
  have h2 : (v ||| 2 ^ i).testBit i = true := by
    simp [Nat.testBit_or, Nat.testBit_two_pow]
  have hand : (v ||| (1 <<< i)) &&& (1 <<< i) = 2 ^ i := by
    rw [Nat.one_shiftLeft, Nat.and_two_pow, h2]
    simp
  rw [hand, Nat.one_shiftLeft]
  apply Nat.eq_of_testBit_eq
  intro j
  rw [sub_two_pow_testBit _ i h2 j]
  by_cases hj : j = i
  · subst hj
    simp [h]
  · simp [Nat.testBit_or, Nat.one_shiftLeft, Nat.testBit_two_pow, hj, Ne.symm hj]

/-- Oring low bits into a 4-aligned value is addition. -/
theorem or_low_of_dvd (z m : Nat) (hd : 4 ∣ z) (hm : m < 4) : z ||| m = z + m := by
  obtain ⟨c, rfl⟩ := hd
  apply Nat.eq_of_testBit_eq
  intro j
  have hadd : (4 * c + m).testBit j = if j < 2 then m.testBit j else c.testBit (j - 2) := by
    rw [show (4 * c + m) = 2 ^ 2 * c + m by ring]
    exact Nat.testBit_mul_pow_two_add _ (show m < 2 ^ 2 by omega) j
  have hz : (4 * c).testBit j = if j < 2 then false else c.testBit (j - 2) := by
    rw [show (4 * c : Nat) = 2 ^ 2 * c + 0 by ring,
      Nat.testBit_mul_pow_two_add _ (show (0:Nat) < 2 ^ 2 by norm_num) j]
    simp
  rw [Nat.testBit_or, hadd, hz]
  by_cases hj : j < 2
  · simp [hj]
  · have hmj : m.testBit j = false := by
      refine Nat.testBit_lt_two_pow ?_
      calc m < 4 := hm
        _ = 2 ^ 2 := by norm_num
        _ ≤ 2 ^ j := Nat.pow_le_pow_right (by norm_num) (by omega)
    simp [hj, hmj]

theorem and_three_mod (y : Nat) : y &&& 3 = y % 4 := by
  rw [show (3 : Nat) = 2 ^ 2 - 1 by norm_num, and_two_pow_sub_one]
  norm_num

theorem and_one_mod (y : Nat) : y &&& 1 = y % 2 := by
  rw [show (1 : Nat) = 2 ^ 1 - 1 by norm_num, and_two_pow_sub_one]
  norm_num

theorem and_two_eq (y : Nat) : y &&& 2 = (y / 2 % 2) * 2 := by
  have h := Nat.and_two_pow y 1
  norm_num at h
  rw [h, Nat.testBit_to_div_mod]
  by_cases hy : y / 2 % 2 = 1 <;> simp [hy] <;> omega


/-- C6 counterexample: `tlsf_free(tlsf_malloc(12))` on the correctly indexed
state `w6` does not restore the allocator bit-identically.  `w6` holds one
free 12-byte block at 100 (bucket `(0, 3)`), and the null block's scratch
`prev_free` field holds 200 — exactly what `insert_free_block` leaves there
after inserting a block at 200 into an empty bucket.  The malloc succeeds
(returns user pointer 108), the free re-inserts the block, and
`insert_free_block`'s unconditional `current->prev_free = block` write at the
null-block list head leaves `prev_free(block_null) = 100 ≠ 200`. -/
theorem C6_counterexample :
    (∀ fl sl, w6.blocks fl sl ≠ w6.nullAddr →
      mapping_insert (block_size w6 (w6.blocks fl sl)) = (fl, sl)) ∧
    (12 : Nat) ≠ 0 ∧
    (tlsf_malloc w6 12).2 = 108 ∧
    (tlsf_free (tlsf_malloc w6 12).1 (tlsf_malloc w6 12).2).prev_free w6.nullAddr = 100 ∧
    w6.prev_free w6.nullAddr = 200 := by
  refine ⟨?_, by decide, by decide, by decide, by decide⟩
  intro fl sl h
  by_cases hc : fl = 0 ∧ sl = 3
  · obtain ⟨rfl, rfl⟩ := hc
    decide
  · exact absurd (by simp [w6, hc]) h

end Tlsf
